import Mathlib

/-!
Verification of the Boolean transformational prover core
(expression AST, rewrite rules, parser pipeline, truth tables, proof search),
shallowly embedded from the TypeScript sources under `src/logic/`.
-/

namespace ProofGenerator

/-- AST of Boolean expressions, from `src/logic/expressions.ts`.
One constructor per class: `Variable`, `TrueConstant`, `FalseConstant`,
`Negation`, and the four `BinaryOperation` subclasses. -/
inductive BooleanExpression where
  | Variable (name : String)
  | TrueConstant
  | FalseConstant
  | Negation (expression : BooleanExpression)
  | Conjunction (left right : BooleanExpression)
  | Disjunction (left right : BooleanExpression)
  | Implication (left right : BooleanExpression)
  | Biconditional (left right : BooleanExpression)
  deriving DecidableEq, Repr

namespace BooleanExpression

/-- `evaluate` from `expressions.ts`, under a total assignment.
The source takes a partial record and throws on a missing variable;
a total function `String → Bool` models an assignment that is defined on
every variable (in particular on `vars(e)`), where the throwing branch of
`Variable.evaluate` is unreachable.
`Implication.evaluate` is `!left || right`; `Biconditional.evaluate` is
`(l && r) || (!l && !r)`. -/
def evaluate : BooleanExpression → (String → Bool) → Bool
  | Variable n, σ => σ n
  | TrueConstant, _ => true
  | FalseConstant, _ => false
  | Negation e, σ => !(e.evaluate σ)
  | Conjunction l r, σ => l.evaluate σ && r.evaluate σ
  | Disjunction l r, σ => l.evaluate σ || r.evaluate σ
  | Implication l r, σ => !(l.evaluate σ) || r.evaluate σ
  | Biconditional l r, σ =>
      (l.evaluate σ && r.evaluate σ) || (!(l.evaluate σ) && !(r.evaluate σ))

/-- `evaluate` from `expressions.ts` under a partial assignment
(a record, modelled as an association list): `Variable.evaluate` throws
when the name is absent, modelled as `none`. -/
def evaluateOpt : BooleanExpression → List (String × Bool) → Option Bool
  | Variable n, σ => σ.lookup n
  | TrueConstant, _ => some true
  | FalseConstant, _ => some false
  | Negation e, σ => do pure (!(← e.evaluateOpt σ))
  | Conjunction l r, σ => do pure ((← l.evaluateOpt σ) && (← r.evaluateOpt σ))
  | Disjunction l r, σ => do pure ((← l.evaluateOpt σ) || (← r.evaluateOpt σ))
  | Implication l r, σ => do pure (!(← l.evaluateOpt σ) || (← r.evaluateOpt σ))
  | Biconditional l r, σ => do
      let lv ← l.evaluateOpt σ
      let rv ← r.evaluateOpt σ
      pure ((lv && rv) || (!lv && !rv))

/-- Structural equality `equals` from `expressions.ts`: same class and
recursively equal children; variables compare their names. -/
def equals : BooleanExpression → BooleanExpression → Bool
  | Variable n, Variable m => n == m
  | TrueConstant, TrueConstant => true
  | FalseConstant, FalseConstant => true
  | Negation a, Negation b => a.equals b
  | Conjunction a b, Conjunction c d => a.equals c && b.equals d
  | Disjunction a b, Disjunction c d => a.equals c && b.equals d
  | Implication a b, Implication c d => a.equals c && b.equals d
  | Biconditional a b, Biconditional c d => a.equals c && b.equals d
  | _, _ => false

/-- `getLength` from `expressions.ts`: leaves count 1, `Negation` adds 1,
binary operations add 1 to the sum of both sides. -/
def getLength : BooleanExpression → Nat
  | Variable _ => 1
  | TrueConstant => 1
  | FalseConstant => 1
  | Negation e => e.getLength + 1
  | Conjunction l r => l.getLength + r.getLength + 1
  | Disjunction l r => l.getLength + r.getLength + 1
  | Implication l r => l.getLength + r.getLength + 1
  | Biconditional l r => l.getLength + r.getLength + 1

/-- Variable occurrences in depth-first (left-to-right) order, before
set-deduplication. -/
def varOccurrences : BooleanExpression → List String
  | Variable n => [n]
  | TrueConstant => []
  | FalseConstant => []
  | Negation e => e.varOccurrences
  | Conjunction l r => l.varOccurrences ++ r.varOccurrences
  | Disjunction l r => l.varOccurrences ++ r.varOccurrences
  | Implication l r => l.varOccurrences ++ r.varOccurrences
  | Biconditional l r => l.varOccurrences ++ r.varOccurrences

/-- `getVariables` from `expressions.ts` as an ordered list: a JS `Set`
keeps first-insertion order, so this is the dedup (first occurrence kept)
of the depth-first variable occurrences. -/
def getVariables (e : BooleanExpression) : List String :=
  e.varOccurrences.dedup

/-- `getHash` from `expressions.ts`: `VAR(n)`, `TRUE`, `FALSE`, `NOT(h)`,
and `<OPNAME>(h1, h2)` with operator names `AND`, `OR`, `IMP`, `IFF`. -/
def getHash : BooleanExpression → String
  | Variable n => "VAR(" ++ n ++ ")"
  | TrueConstant => "TRUE"
  | FalseConstant => "FALSE"
  | Negation e => "NOT(" ++ e.getHash ++ ")"
  | Conjunction l r => "AND(" ++ l.getHash ++ ", " ++ r.getHash ++ ")"
  | Disjunction l r => "OR(" ++ l.getHash ++ ", " ++ r.getHash ++ ")"
  | Implication l r => "IMP(" ++ l.getHash ++ ", " ++ r.getHash ++ ")"
  | Biconditional l r => "IFF(" ++ l.getHash ++ ", " ++ r.getHash ++ ")"

theorem equals_iff_eq : ∀ e₁ e₂ : BooleanExpression, e₁.equals e₂ = true ↔ e₁ = e₂ := by
  intro e₁
  induction e₁ with
  | Variable n => intro e₂; cases e₂ <;> simp [equals]
  | TrueConstant => intro e₂; cases e₂ <;> simp [equals]
  | FalseConstant => intro e₂; cases e₂ <;> simp [equals]
  | Negation a ih => intro e₂; cases e₂ <;> simp [equals, ih]
  | Conjunction a b iha ihb => intro e₂; cases e₂ <;> simp [equals, iha, ihb]
  | Disjunction a b iha ihb => intro e₂; cases e₂ <;> simp [equals, iha, ihb]
  | Implication a b iha ihb => intro e₂; cases e₂ <;> simp [equals, iha, ihb]
  | Biconditional a b iha ihb => intro e₂; cases e₂ <;> simp [equals, iha, ihb]

theorem getLength_pos (e : BooleanExpression) : 1 ≤ e.getLength := by
  cases e <;> simp [getLength]

theorem equals_self (e : BooleanExpression) : e.equals e = true :=
  (equals_iff_eq e e).2 rfl

theorem mem_getVariables {v : String} {e : BooleanExpression} :
    v ∈ e.getVariables ↔ v ∈ e.varOccurrences := List.mem_dedup

/-- Under an association-list assignment that covers every variable of `e`,
the partial evaluator succeeds and agrees with the total evaluator run on
the looked-up values. -/
theorem evaluateOpt_total : ∀ (e : BooleanExpression) (σ : List (String × Bool)),
    (∀ v ∈ e.varOccurrences, (σ.lookup v).isSome) →
    e.evaluateOpt σ = some (e.evaluate fun v => (σ.lookup v).getD false) := by
  intro e σ h
  induction e with
  | Variable n =>
      have := h n (by simp [varOccurrences])
      cases hl : σ.lookup n with
      | none => rw [hl] at this; simp at this
      | some b => simp [evaluateOpt, evaluate, hl]
  | TrueConstant => simp [evaluateOpt, evaluate]
  | FalseConstant => simp [evaluateOpt, evaluate]
  | Negation a ih =>
      rw [evaluateOpt, ih (fun v hv => h v (by simp [varOccurrences, hv]))]
      simp [evaluate]
  | Conjunction a b iha ihb =>
      rw [evaluateOpt, iha (fun v hv => h v (by simp [varOccurrences, hv])),
        ihb (fun v hv => h v (by simp [varOccurrences, hv]))]
      simp [evaluate]
  | Disjunction a b iha ihb =>
      rw [evaluateOpt, iha (fun v hv => h v (by simp [varOccurrences, hv])),
        ihb (fun v hv => h v (by simp [varOccurrences, hv]))]
      simp [evaluate]
  | Implication a b iha ihb =>
      rw [evaluateOpt, iha (fun v hv => h v (by simp [varOccurrences, hv])),
        ihb (fun v hv => h v (by simp [varOccurrences, hv]))]
      simp [evaluate]
  | Biconditional a b iha ihb =>
      rw [evaluateOpt, iha (fun v hv => h v (by simp [varOccurrences, hv])),
        ihb (fun v hv => h v (by simp [varOccurrences, hv]))]
      simp [evaluate]

/-- Type guard `isTrueConstant` from `expressions.ts`. -/
def isTrueConstant : BooleanExpression → Bool
  | TrueConstant => true
  | _ => false

/-- Type guard `isFalseConstant` from `expressions.ts`. -/
def isFalseConstant : BooleanExpression → Bool
  | FalseConstant => true
  | _ => false

theorem isTrueConstant_eq {e : BooleanExpression} :
    isTrueConstant e = true ↔ e = TrueConstant := by
  cases e <;> simp [isTrueConstant]

theorem isFalseConstant_eq {e : BooleanExpression} :
    isFalseConstant e = true ↔ e = FalseConstant := by
  cases e <;> simp [isFalseConstant]

end BooleanExpression

open BooleanExpression

/-- The `TransformationRule` interface from `rules.ts`. `apply` may throw in
the source; `Except String` models the thrown error message. -/
structure TransformationRule where
  name : String
  category : String
  description : String
  canApply : BooleanExpression → Bool
  apply : BooleanExpression → Except String BooleanExpression

/-- `CommutativityAND` from `rules.ts`. -/
def CommutativityAND : TransformationRule where
  name := "Commutativity (AND)"
  category := "comm_assoc"
  description := "P ∧ Q ⟺ Q ∧ P"
  canApply
    | .Conjunction _ _ => true
    | _ => false
  apply
    | .Conjunction l r => .ok (.Conjunction r l)
    | _ => .error "Cannot apply AND commutativity to non-conjunction"

/-- `CommutativityOR` from `rules.ts`. -/
def CommutativityOR : TransformationRule where
  name := "Commutativity (OR)"
  category := "comm_assoc"
  description := "P ∨ Q ⟺ Q ∨ P"
  canApply
    | .Disjunction _ _ => true
    | _ => false
  apply
    | .Disjunction l r => .ok (.Disjunction r l)
    | _ => .error "Cannot apply OR commutativity to non-disjunction"

/-- `CommutativityIFF` from `rules.ts`. -/
def CommutativityIFF : TransformationRule where
  name := "Commutativity (IFF)"
  category := "comm_assoc"
  description := "P ⟺ Q ⟺ Q ⟺ P"
  canApply
    | .Biconditional _ _ => true
    | _ => false
  apply
    | .Biconditional l r => .ok (.Biconditional r l)
    | _ => .error "Cannot apply IFF commutativity to non-biconditional"

/-- `CommutativityANDAND` from `rules.ts`: `(P ∧ Q) ∧ R → Q ∧ (P ∧ R)`. -/
def CommutativityANDAND : TransformationRule where
  name := "Commutativity (AND-AND)"
  category := "comm_assoc"
  description := "(P ∧ Q) ∧ R ⟺ Q ∧ (P ∧ R)"
  canApply
    | .Conjunction (.Conjunction _ _) _ => true
    | _ => false
  apply
    | .Conjunction (.Conjunction a b) r => .ok (.Conjunction b (.Conjunction a r))
    | _ => .error "Cannot apply AND-AND commutativity"

/-- `CommutativityOROR` from `rules.ts`: `(P ∨ Q) ∨ R → Q ∨ (P ∨ R)`. -/
def CommutativityOROR : TransformationRule where
  name := "Commutativity (OR-OR)"
  category := "comm_assoc"
  description := "(P ∨ Q) ∨ R ⟺ Q ∨ (P ∨ R)"
  canApply
    | .Disjunction (.Disjunction _ _) _ => true
    | _ => false
  apply
    | .Disjunction (.Disjunction a b) r => .ok (.Disjunction b (.Disjunction a r))
    | _ => .error "Cannot apply OR-OR commutativity"

/-- `DoubleNegation` from `rules.ts`. -/
def DoubleNegation : TransformationRule where
  name := "Double Negation"
  category := "neg"
  description := "¬(¬P) ⟺ P"
  canApply
    | .Negation (.Negation _) => true
    | _ => false
  apply
    | .Negation (.Negation a) => .ok a
    | _ => .error "Cannot apply double negation rule"

/-- `ExcludedMiddle` from `rules.ts`: the source checks `isNegation(right)`
first, then `isNegation(left)`; the match order mirrors that priority. -/
def ExcludedMiddle : TransformationRule where
  name := "Excluded Middle"
  category := "lem"
  description := "P ∨ ¬P ⟺ true"
  canApply
    | .Disjunction l (.Negation r) => l.equals r
    | .Disjunction (.Negation l) r => r.equals l
    | _ => false
  apply e :=
    match e with
    | .Disjunction l (.Negation r) =>
        if l.equals r then .ok .TrueConstant else .error "Cannot apply excluded middle rule"
    | .Disjunction (.Negation l) r =>
        if r.equals l then .ok .TrueConstant else .error "Cannot apply excluded middle rule"
    | _ => .error "Cannot apply excluded middle rule"

/-- `Contradiction` from `rules.ts`, with the same branch priority as
`ExcludedMiddle`. -/
def Contradiction : TransformationRule where
  name := "Contradiction"
  category := "contr"
  description := "P ∧ ¬P ⟺ false"
  canApply
    | .Conjunction l (.Negation r) => l.equals r
    | .Conjunction (.Negation l) r => r.equals l
    | _ => false
  apply e :=
    match e with
    | .Conjunction l (.Negation r) =>
        if l.equals r then .ok .FalseConstant else .error "Cannot apply contradiction rule"
    | .Conjunction (.Negation l) r =>
        if r.equals l then .ok .FalseConstant else .error "Cannot apply contradiction rule"
    | _ => .error "Cannot apply contradiction rule"

/-- `DeMorganAND` from `rules.ts`: `¬(P ∧ Q) → ¬P ∨ ¬Q`. -/
def DeMorganAND : TransformationRule where
  name := "De Morgan's Law (AND)"
  category := "dm"
  description := "¬(P ∧ Q) ⟺ (¬P) ∨ (¬Q)"
  canApply
    | .Negation (.Conjunction _ _) => true
    | _ => false
  apply
    | .Negation (.Conjunction a b) => .ok (.Disjunction (.Negation a) (.Negation b))
    | _ => .error "Cannot apply De Morgan's law for AND"

/-- `DeMorganOR` from `rules.ts`: `¬(P ∨ Q) → ¬P ∧ ¬Q`. -/
def DeMorganOR : TransformationRule where
  name := "De Morgan's Law (OR)"
  category := "dm"
  description := "¬(P ∨ Q) ⟺ (¬P) ∧ (¬Q)"
  canApply
    | .Negation (.Disjunction _ _) => true
    | _ => false
  apply
    | .Negation (.Disjunction a b) => .ok (.Conjunction (.Negation a) (.Negation b))
    | _ => .error "Cannot apply De Morgan's law for OR"

/-- `DeMorganANDReverse` from `rules.ts`: `¬P ∨ ¬Q → ¬(P ∧ Q)`. -/
def DeMorganANDReverse : TransformationRule where
  name := "De Morgan's Law (AND Reverse)"
  category := "dm"
  description := "(¬P) ∨ (¬Q) ⟺ ¬(P ∧ Q)"
  canApply
    | .Disjunction (.Negation _) (.Negation _) => true
    | _ => false
  apply
    | .Disjunction (.Negation a) (.Negation b) => .ok (.Negation (.Conjunction a b))
    | _ => .error "Cannot apply reverse De Morgan's law for AND"

/-- `DeMorganORReverse` from `rules.ts`: `¬P ∧ ¬Q → ¬(P ∨ Q)`. -/
def DeMorganORReverse : TransformationRule where
  name := "De Morgan's Law (OR Reverse)"
  category := "dm"
  description := "(¬P) ∧ (¬Q) ⟺ ¬(P ∨ Q)"
  canApply
    | .Conjunction (.Negation _) (.Negation _) => true
    | _ => false
  apply
    | .Conjunction (.Negation a) (.Negation b) => .ok (.Negation (.Disjunction a b))
    | _ => .error "Cannot apply reverse De Morgan's law for OR"

/-- `ImplicationElimination` from `rules.ts`: `P ⇒ Q → ¬P ∨ Q`. -/
def ImplicationElimination : TransformationRule where
  name := "Implication Elimination"
  category := "impl"
  description := "P ⇒ Q ⟺ ¬P ∨ Q"
  canApply
    | .Implication _ _ => true
    | _ => false
  apply
    | .Implication l r => .ok (.Disjunction (.Negation l) r)
    | _ => .error "Cannot apply implication elimination to non-implication"

/-- `ImplicationEliminationReverse` from `rules.ts`: `¬P ∨ Q → P ⇒ Q`
(applies whenever the left disjunct is a negation). -/
def ImplicationEliminationReverse : TransformationRule where
  name := "Implication Elimination (Reverse)"
  category := "impl"
  description := "¬P ∨ Q ⟺ P ⇒ Q"
  canApply
    | .Disjunction (.Negation _) _ => true
    | _ => false
  apply
    | .Disjunction (.Negation a) r => .ok (.Implication a r)
    | _ => .error "Cannot apply reverse implication elimination"

/-- `Contrapositive` from `rules.ts`. `canApply` rejects implications whose
sides are both negated; `apply` checks only `isImplication`, so it succeeds
on some inputs `canApply` rejects. -/
def Contrapositive : TransformationRule where
  name := "Contrapositive"
  category := "contrapos"
  description := "(P ⇒ Q) ⟺ (¬Q ⇒ ¬P)"
  canApply
    | .Implication (.Negation _) (.Negation _) => false
    | .Implication _ _ => true
    | _ => false
  apply
    | .Implication l r => .ok (.Implication (.Negation r) (.Negation l))
    | _ => .error "Cannot apply contrapositive to non-implication"

/-- `DistributivityAND` from `rules.ts`: `P ∧ (Q ∨ R) → (P ∧ Q) ∨ (P ∧ R)`. -/
def DistributivityAND : TransformationRule where
  name := "Distributivity (AND over OR)"
  category := "distr"
  description := "P ∧ (Q ∨ R) ⟺ (P ∧ Q) ∨ (P ∧ R)"
  canApply
    | .Conjunction _ (.Disjunction _ _) => true
    | _ => false
  apply
    | .Conjunction p (.Disjunction q r) =>
        .ok (.Disjunction (.Conjunction p q) (.Conjunction p r))
    | _ => .error "Cannot apply AND distributivity"

/-- `DistributivityOR` from `rules.ts`: `P ∨ (Q ∧ R) → (P ∨ Q) ∧ (P ∨ R)`. -/
def DistributivityOR : TransformationRule where
  name := "Distributivity (OR over AND)"
  category := "distr"
  description := "P ∨ (Q ∧ R) ⟺ (P ∨ Q) ∧ (P ∨ R)"
  canApply
    | .Disjunction _ (.Conjunction _ _) => true
    | _ => false
  apply
    | .Disjunction p (.Conjunction q r) =>
        .ok (.Conjunction (.Disjunction p q) (.Disjunction p r))
    | _ => .error "Cannot apply OR distributivity"

/-- `DistributivityANDReverse` from `rules.ts`. `apply` only guards
`isDisjunction` and then casts both sides to `Conjunction`; when a side is
not a conjunction the source would read `undefined` members and build an
ill-formed value, modelled here as an error. -/
def DistributivityANDReverse : TransformationRule where
  name := "Distributivity (AND Reverse)"
  category := "distr"
  description := "(P ∧ Q) ∨ (P ∧ R) ⟺ P ∧ (Q ∨ R)"
  canApply
    | .Disjunction (.Conjunction a _) (.Conjunction c _) => a.equals c
    | _ => false
  apply
    | .Disjunction (.Conjunction a b) (.Conjunction _ d) =>
        .ok (.Conjunction a (.Disjunction b d))
    | .Disjunction _ _ => .error "undefined member access"
    | _ => .error "Cannot apply AND distributivity reverse to non-disjunction"

/-- `DistributivityORReverse` from `rules.ts`, dual of the previous rule,
with the same unchecked casts in `apply`. -/
def DistributivityORReverse : TransformationRule where
  name := "Distributivity (OR Reverse)"
  category := "distr"
  description := "(P ∨ Q) ∧ (P ∨ R) ⟺ P ∨ (Q ∧ R)"
  canApply
    | .Conjunction (.Disjunction a _) (.Disjunction c _) => a.equals c
    | _ => false
  apply
    | .Conjunction (.Disjunction a b) (.Disjunction _ d) =>
        .ok (.Disjunction a (.Conjunction b d))
    | .Conjunction _ _ => .error "undefined member access"
    | _ => .error "Cannot apply OR distributivity reverse to non-conjunction"

/-- `Idempotence` from `rules.ts`. `canApply` wants a conjunction or
disjunction with structurally equal sides; `apply` accepts any
`BinaryOperation` with equal sides (so implications and biconditionals
slip through the guard). -/
def Idempotence : TransformationRule where
  name := "Idempotence"
  category := "idemp"
  description := "P ∧ P ⟺ P ∨ P ⟺ P"
  canApply
    | .Conjunction l r => l.equals r
    | .Disjunction l r => l.equals r
    | _ => false
  apply e :=
    match e with
    | .Conjunction l r => if l.equals r then .ok l else .error "Cannot apply idempotence rule"
    | .Disjunction l r => if l.equals r then .ok l else .error "Cannot apply idempotence rule"
    | .Implication l r => if l.equals r then .ok l else .error "Cannot apply idempotence rule"
    | .Biconditional l r => if l.equals r then .ok l else .error "Cannot apply idempotence rule"
    | _ => .error "Cannot apply idempotence rule"

/-- Shared applicability test of the reverse idempotence rules from
`rules.ts`: the expression is not already an idempotent OR or AND. -/
def notIdempotentForm : BooleanExpression → Bool
  | .Disjunction l r => !(l.equals r)
  | .Conjunction l r => !(l.equals r)
  | _ => true

/-- `IdempotenceReverseOR` from `rules.ts`: `apply` has no guard at all and
returns `e ∨ e` for every input. -/
def IdempotenceReverseOR : TransformationRule where
  name := "Idempotence Reverse (OR)"
  category := "idemp"
  description := "P ⟺ P ∨ P"
  canApply := notIdempotentForm
  apply e := .ok (.Disjunction e e)

/-- `IdempotenceReverseAND` from `rules.ts`: `apply` has no guard at all and
returns `e ∧ e` for every input. -/
def IdempotenceReverseAND : TransformationRule where
  name := "Idempotence Reverse (AND)"
  category := "idemp"
  description := "P ⟺ P ∧ P"
  canApply := notIdempotentForm
  apply e := .ok (.Conjunction e e)

/-- `Equivalence` from `rules.ts`: `P ⟺ Q → (P ⇒ Q) ∧ (Q ⇒ P)`. -/
def Equivalence : TransformationRule where
  name := "Equivalence"
  category := "equiv"
  description := "P ⟺ Q ⟺ (P ⇒ Q) ∧ (Q ⇒ P)"
  canApply
    | .Biconditional _ _ => true
    | _ => false
  apply
    | .Biconditional l r =>
        .ok (.Conjunction (.Implication l r) (.Implication r l))
    | _ => .error "Cannot apply equivalence rule to non-biconditional"

/-- `EquivalenceReverse` from `rules.ts`. `apply` only guards
`isConjunction` and casts the left side to `Implication`; a non-implication
left side would yield `undefined` members, modelled as an error. -/
def EquivalenceReverse : TransformationRule where
  name := "Equivalence Reverse"
  category := "equiv"
  description := "(P ⇒ Q) ∧ (Q ⇒ P) ⟺ P ⟺ Q"
  canApply
    | .Conjunction (.Implication a b) (.Implication c d) => a.equals d && b.equals c
    | _ => false
  apply
    | .Conjunction (.Implication a b) _ => .ok (.Biconditional a b)
    | .Conjunction _ _ => .error "undefined member access"
    | _ => .error "Cannot apply equivalence reverse to non-conjunction"

/-- `SimplificationWithTrue` from `rules.ts`: `P ∧ true`, `true ∧ P`,
`P ∨ false`, `false ∨ P → P`; the left operand is tested first. -/
def SimplificationWithTrue : TransformationRule where
  name := "Simplification (True)"
  category := "simp1"
  description := "P ∧ true ⟺ P, P ∨ false ⟺ P"
  canApply
    | .Conjunction l r => isTrueConstant l || isTrueConstant r
    | .Disjunction l r => isFalseConstant l || isFalseConstant r
    | _ => false
  apply
    | .Conjunction .TrueConstant r => .ok r
    | .Conjunction l .TrueConstant => .ok l
    | .Disjunction .FalseConstant r => .ok r
    | .Disjunction l .FalseConstant => .ok l
    | _ => .error "Cannot apply simplification with true/false"

/-- `SimplificationWithFalse` from `rules.ts`. `apply` returns `true` for
any disjunction and `false` for any conjunction, with no constant check. -/
def SimplificationWithFalse : TransformationRule where
  name := "Simplification (False)"
  category := "simp1"
  description := "P ∨ true ⟺ true, P ∧ false ⟺ false"
  canApply
    | .Disjunction l r => isTrueConstant l || isTrueConstant r
    | .Conjunction l r => isFalseConstant l || isFalseConstant r
    | _ => false
  apply
    | .Disjunction _ _ => .ok .TrueConstant
    | .Conjunction _ _ => .ok .FalseConstant
    | _ => .error "Cannot apply simplification with true/false"

/-- Shared applicability test of the `Simplification 1` reverse rules from
`rules.ts`: not a conjunction with a `true` operand and not a disjunction
with a `false` operand. -/
def notSimp1Form (e : BooleanExpression) : Bool :=
  !(match e with
    | .Conjunction l r => isTrueConstant l || isTrueConstant r
    | _ => false) &&
  !(match e with
    | .Disjunction l r => isFalseConstant l || isFalseConstant r
    | _ => false)

/-- `Simplification1AndReverse` from `rules.ts`: unguarded `apply` returning
`e ∧ true`. -/
def Simplification1AndReverse : TransformationRule where
  name := "Simplification 1 (AND Reverse)"
  category := "simp1"
  description := "P ⟺ P ∧ True"
  canApply := notSimp1Form
  apply e := .ok (.Conjunction e .TrueConstant)

/-- `Simplification1OrReverse` from `rules.ts`: unguarded `apply` returning
`e ∨ false`. -/
def Simplification1OrReverse : TransformationRule where
  name := "Simplification 1 (OR Reverse)"
  category := "simp1"
  description := "P ⟺ P ∨ False"
  canApply := notSimp1Form
  apply e := .ok (.Disjunction e .FalseConstant)

/-- `Simplification1True` from `rules.ts`: unguarded `apply` returning
`true` for every input. -/
def Simplification1True : TransformationRule where
  name := "Simplification 1 (True)"
  category := "simp1"
  description := "P ∨ True ⟺ True"
  canApply
    | .Disjunction l r => isTrueConstant l || isTrueConstant r
    | _ => false
  apply _ := .ok .TrueConstant

/-- `Simplification1False` from `rules.ts`: unguarded `apply` returning
`false` for every input. -/
def Simplification1False : TransformationRule where
  name := "Simplification 1 (False)"
  category := "simp1"
  description := "P ∧ False ⟺ False"
  canApply
    | .Conjunction l r => isFalseConstant l || isFalseConstant r
    | _ => false
  apply _ := .ok .FalseConstant

/-- `Simplification2Or` from `rules.ts` (absorption): the source tests
`isConjunction(right)` before `isConjunction(left)` in both `canApply` and
`apply`; `apply` only guards `isDisjunction`. -/
def Simplification2Or : TransformationRule where
  name := "Simplification 2 (OR)"
  category := "simp2"
  description := "P ∨ (P ∧ Q) ⟺ P"
  canApply
    | .Disjunction l (.Conjunction c d) => l.equals c || l.equals d
    | .Disjunction (.Conjunction c d) r => r.equals c || r.equals d
    | _ => false
  apply
    | .Disjunction l (.Conjunction _ _) => .ok l
    | .Disjunction _ r => .ok r
    | _ => .error "Cannot apply OR simplification 2 to non-disjunction"

/-- `Simplification2And` from `rules.ts` (absorption), dual of
`Simplification2Or`. -/
def Simplification2And : TransformationRule where
  name := "Simplification 2 (AND)"
  category := "simp2"
  description := "P ∧ (P ∨ Q) ⟺ P"
  canApply
    | .Conjunction l (.Disjunction c d) => l.equals c || l.equals d
    | .Conjunction (.Disjunction c d) r => r.equals c || r.equals d
    | _ => false
  apply
    | .Conjunction l (.Disjunction _ _) => .ok l
    | .Conjunction _ r => .ok r
    | _ => .error "Cannot apply AND simplification 2 to non-conjunction"

/-- `ALL_TRANSFORMATION_RULES` from `rules.ts`, in source order. -/
def ALL_TRANSFORMATION_RULES : List TransformationRule :=
  [CommutativityAND, CommutativityOR, CommutativityIFF,
   CommutativityANDAND, CommutativityOROR,
   DoubleNegation,
   ExcludedMiddle, Contradiction,
   DeMorganAND, DeMorganOR, DeMorganANDReverse, DeMorganORReverse,
   ImplicationElimination, ImplicationEliminationReverse, Contrapositive,
   DistributivityAND, DistributivityOR,
   DistributivityANDReverse, DistributivityORReverse,
   Idempotence, IdempotenceReverseOR, IdempotenceReverseAND,
   Equivalence, EquivalenceReverse,
   SimplificationWithTrue, SimplificationWithFalse,
   Simplification1AndReverse, Simplification1OrReverse,
   Simplification1True, Simplification1False,
   Simplification2Or, Simplification2And]

theorem bool_absorb₁ (a b : Bool) : (a || (a && b)) = a := by cases a <;> cases b <;> rfl
theorem bool_absorb₂ (a b : Bool) : (a || (b && a)) = a := by cases a <;> cases b <;> rfl
theorem bool_absorb₃ (a b : Bool) : ((a && b) || a) = a := by cases a <;> cases b <;> rfl
theorem bool_absorb₄ (a b : Bool) : ((a && b) || b) = b := by cases a <;> cases b <;> rfl
theorem bool_absorb₅ (a b : Bool) : (a && (a || b)) = a := by cases a <;> cases b <;> rfl
theorem bool_absorb₆ (a b : Bool) : (a && (b || a)) = a := by cases a <;> cases b <;> rfl
theorem bool_absorb₇ (a b : Bool) : ((a || b) && a) = a := by cases a <;> cases b <;> rfl
theorem bool_absorb₈ (a b : Bool) : ((a || b) && b) = b := by cases a <;> cases b <;> rfl

theorem bool_iff_comm (a b : Bool) :
    ((a && b) || (!a && !b)) = ((b && a) || (!b && !a)) := by cases a <;> cases b <;> rfl

theorem bool_iff_impl (a b : Bool) :
    ((a && b) || (!a && !b)) = ((!a || b) && (!b || a)) := by cases a <;> cases b <;> rfl

theorem bool_swap_and (a b c : Bool) : ((a && b) && c) = (b && (a && c)) := by
  cases a <;> cases b <;> cases c <;> rfl

theorem bool_swap_or (a b c : Bool) : ((a || b) || c) = (b || (a || c)) := by
  cases a <;> cases b <;> cases c <;> rfl

theorem bool_contrapos (a b : Bool) : (!a || b) = (!(!b) || !a) := by
  cases a <;> cases b <;> rfl

theorem bool_and_or_left (a b c : Bool) : (a && (b || c)) = ((a && b) || (a && c)) := by
  cases a <;> cases b <;> cases c <;> rfl

theorem bool_or_and_left (a b c : Bool) : (a || (b && c)) = ((a || b) && (a || c)) := by
  cases a <;> cases b <;> cases c <;> rfl

/-- Soundness of one rule: where `canApply` holds, `apply` succeeds and the
result evaluates identically under every total assignment. -/
def RuleSound (r : TransformationRule) : Prop :=
  ∀ e, r.canApply e = true →
    ∃ e', r.apply e = Except.ok e' ∧
      ∀ σ : String → Bool, e.evaluate σ = e'.evaluate σ

theorem sound_CommutativityAND : RuleSound CommutativityAND := by
  intro e h
  cases e <;> try (simp only [CommutativityAND] at h; exact absurd h (by decide))
  case Conjunction l r =>
    exact ⟨_, rfl, fun σ => Bool.and_comm _ _⟩

theorem sound_CommutativityOR : RuleSound CommutativityOR := by
  intro e h
  cases e <;> try (simp only [CommutativityOR] at h; exact absurd h (by decide))
  case Disjunction l r =>
    exact ⟨_, rfl, fun σ => Bool.or_comm _ _⟩

theorem sound_CommutativityIFF : RuleSound CommutativityIFF := by
  intro e h
  cases e <;> try (simp only [CommutativityIFF] at h; exact absurd h (by decide))
  case Biconditional l r =>
    exact ⟨_, rfl, fun σ => bool_iff_comm _ _⟩

theorem sound_CommutativityANDAND : RuleSound CommutativityANDAND := by
  intro e h
  cases e <;> try (simp only [CommutativityANDAND] at h; exact absurd h (by decide))
  case Conjunction l r =>
    cases l <;> try (simp only [CommutativityANDAND] at h; exact absurd h (by decide))
    case Conjunction a b =>
      exact ⟨_, rfl, fun σ => bool_swap_and _ _ _⟩

theorem sound_CommutativityOROR : RuleSound CommutativityOROR := by
  intro e h
  cases e <;> try (simp only [CommutativityOROR] at h; exact absurd h (by decide))
  case Disjunction l r =>
    cases l <;> try (simp only [CommutativityOROR] at h; exact absurd h (by decide))
    case Disjunction a b =>
      exact ⟨_, rfl, fun σ => bool_swap_or _ _ _⟩

theorem sound_DoubleNegation : RuleSound DoubleNegation := by
  intro e h
  cases e <;> try (simp only [DoubleNegation] at h; exact absurd h (by decide))
  case Negation a =>
    cases a <;> try (simp only [DoubleNegation] at h; exact absurd h (by decide))
    case Negation b =>
      exact ⟨_, rfl, fun σ => Bool.not_not _⟩

theorem sound_ExcludedMiddle : RuleSound ExcludedMiddle := by
  intro e h
  cases e <;> try (simp only [ExcludedMiddle] at h; exact absurd h (by decide))
  case Disjunction l r =>
    cases r <;> cases l <;>
      simp only [ExcludedMiddle, equals_iff_eq] at h <;>
      first
      | exact absurd h (by decide)
      | (rcases h with rfl
         refine ⟨.TrueConstant, by simp [ExcludedMiddle, equals_self], fun σ => ?_⟩
         first
         | exact Bool.or_not_self _
         | exact Bool.not_or_self _)

theorem sound_Contradiction : RuleSound Contradiction := by
  intro e h
  cases e <;> try (simp only [Contradiction] at h; exact absurd h (by decide))
  case Conjunction l r =>
    cases r <;> cases l <;>
      simp only [Contradiction, equals_iff_eq] at h <;>
      first
      | exact absurd h (by decide)
      | (rcases h with rfl
         refine ⟨.FalseConstant, by simp [Contradiction, equals_self], fun σ => ?_⟩
         first
         | exact Bool.and_not_self _
         | exact Bool.not_and_self _)

theorem sound_DeMorganAND : RuleSound DeMorganAND := by
  intro e h
  cases e <;> try (simp only [DeMorganAND] at h; exact absurd h (by decide))
  case Negation a =>
    cases a <;> try (simp only [DeMorganAND] at h; exact absurd h (by decide))
    case Conjunction l r =>
      exact ⟨_, rfl, fun σ => Bool.not_and _ _⟩

theorem sound_DeMorganOR : RuleSound DeMorganOR := by
  intro e h
  cases e <;> try (simp only [DeMorganOR] at h; exact absurd h (by decide))
  case Negation a =>
    cases a <;> try (simp only [DeMorganOR] at h; exact absurd h (by decide))
    case Disjunction l r =>
      exact ⟨_, rfl, fun σ => Bool.not_or _ _⟩

theorem sound_DeMorganANDReverse : RuleSound DeMorganANDReverse := by
  intro e h
  cases e <;> try (simp only [DeMorganANDReverse] at h; exact absurd h (by decide))
  case Disjunction l r =>
    cases l <;> cases r <;>
      simp only [DeMorganANDReverse] at h <;>
      first
      | exact absurd h (by decide)
      | exact ⟨_, rfl, fun σ => (Bool.not_and _ _).symm⟩

theorem sound_DeMorganORReverse : RuleSound DeMorganORReverse := by
  intro e h
  cases e <;> try (simp only [DeMorganORReverse] at h; exact absurd h (by decide))
  case Conjunction l r =>
    cases l <;> cases r <;>
      simp only [DeMorganORReverse] at h <;>
      first
      | exact absurd h (by decide)
      | exact ⟨_, rfl, fun σ => (Bool.not_or _ _).symm⟩

theorem sound_ImplicationElimination : RuleSound ImplicationElimination := by
  intro e h
  cases e <;> try (simp only [ImplicationElimination] at h; exact absurd h (by decide))
  case Implication l r =>
    exact ⟨_, rfl, fun σ => rfl⟩

theorem sound_ImplicationEliminationReverse : RuleSound ImplicationEliminationReverse := by
  intro e h
  cases e <;> try (simp only [ImplicationEliminationReverse] at h; exact absurd h (by decide))
  case Disjunction l r =>
    cases l <;> try (simp only [ImplicationEliminationReverse] at h; exact absurd h (by decide))
    case Negation a =>
      exact ⟨_, rfl, fun σ => rfl⟩

theorem sound_Contrapositive : RuleSound Contrapositive := by
  intro e h
  cases e <;> try (simp only [Contrapositive] at h; exact absurd h (by decide))
  case Implication l r =>
    cases l <;> cases r <;>
      simp only [Contrapositive] at h <;>
      first
      | exact absurd h (by decide)
      | exact ⟨_, rfl, fun σ => bool_contrapos _ _⟩

theorem sound_DistributivityAND : RuleSound DistributivityAND := by
  intro e h
  cases e <;> try (simp only [DistributivityAND] at h; exact absurd h (by decide))
  case Conjunction l r =>
    cases r <;> try (simp only [DistributivityAND] at h; exact absurd h (by decide))
    case Disjunction q r' =>
      exact ⟨_, rfl, fun σ => bool_and_or_left _ _ _⟩

theorem sound_DistributivityOR : RuleSound DistributivityOR := by
  intro e h
  cases e <;> try (simp only [DistributivityOR] at h; exact absurd h (by decide))
  case Disjunction l r =>
    cases r <;> try (simp only [DistributivityOR] at h; exact absurd h (by decide))
    case Conjunction q r' =>
      exact ⟨_, rfl, fun σ => bool_or_and_left _ _ _⟩

theorem sound_DistributivityANDReverse : RuleSound DistributivityANDReverse := by
  intro e h
  cases e <;> try (simp only [DistributivityANDReverse] at h; exact absurd h (by decide))
  case Disjunction l r =>
    cases l <;> cases r <;>
      simp only [DistributivityANDReverse, equals_iff_eq] at h <;>
      first
      | exact absurd h (by decide)
      | (rcases h with rfl
         exact ⟨_, rfl, fun σ => (bool_and_or_left _ _ _).symm⟩)

theorem sound_DistributivityORReverse : RuleSound DistributivityORReverse := by
  intro e h
  cases e <;> try (simp only [DistributivityORReverse] at h; exact absurd h (by decide))
  case Conjunction l r =>
    cases l <;> cases r <;>
      simp only [DistributivityORReverse, equals_iff_eq] at h <;>
      first
      | exact absurd h (by decide)
      | (rcases h with rfl
         exact ⟨_, rfl, fun σ => (bool_or_and_left _ _ _).symm⟩)

theorem sound_Idempotence : RuleSound Idempotence := by
  intro e h
  cases e <;> try (simp only [Idempotence] at h; exact absurd h (by decide))
  case Conjunction l r =>
    rw [show Idempotence.canApply (.Conjunction l r) = l.equals r from rfl,
      equals_iff_eq] at h
    subst h
    exact ⟨l, by simp [Idempotence, equals_self], fun σ => Bool.and_self _⟩
  case Disjunction l r =>
    rw [show Idempotence.canApply (.Disjunction l r) = l.equals r from rfl,
      equals_iff_eq] at h
    subst h
    exact ⟨l, by simp [Idempotence, equals_self], fun σ => Bool.or_self _⟩

theorem sound_IdempotenceReverseOR : RuleSound IdempotenceReverseOR :=
  fun e _ => ⟨_, rfl, fun σ => (Bool.or_self _).symm⟩

theorem sound_IdempotenceReverseAND : RuleSound IdempotenceReverseAND :=
  fun e _ => ⟨_, rfl, fun σ => (Bool.and_self _).symm⟩

theorem sound_Equivalence : RuleSound Equivalence := by
  intro e h
  cases e <;> try (simp only [Equivalence] at h; exact absurd h (by decide))
  case Biconditional l r =>
    exact ⟨_, rfl, fun σ => bool_iff_impl _ _⟩

theorem sound_EquivalenceReverse : RuleSound EquivalenceReverse := by
  intro e h
  cases e <;> try (simp only [EquivalenceReverse] at h; exact absurd h (by decide))
  case Conjunction l r =>
    cases l <;> cases r <;>
      simp only [EquivalenceReverse, Bool.and_eq_true, equals_iff_eq] at h <;>
      first
      | exact absurd h (by decide)
      | (rcases h with ⟨rfl, rfl⟩
         exact ⟨_, rfl, fun σ => (bool_iff_impl _ _).symm⟩)

theorem sound_SimplificationWithTrue : RuleSound SimplificationWithTrue := by
  intro e h
  cases e <;> try (simp only [SimplificationWithTrue] at h; exact absurd h (by decide))
  case Conjunction l r =>
    rw [show SimplificationWithTrue.canApply (.Conjunction l r) =
      (isTrueConstant l || isTrueConstant r) from rfl, Bool.or_eq_true,
      isTrueConstant_eq, isTrueConstant_eq] at h
    rcases h with rfl | rfl
    · cases r <;> exact ⟨_, rfl, fun σ => Bool.true_and _⟩
    · cases l <;> exact ⟨_, rfl, fun σ => Bool.and_true _⟩
  case Disjunction l r =>
    rw [show SimplificationWithTrue.canApply (.Disjunction l r) =
      (isFalseConstant l || isFalseConstant r) from rfl, Bool.or_eq_true,
      isFalseConstant_eq, isFalseConstant_eq] at h
    rcases h with rfl | rfl
    · cases r <;> exact ⟨_, rfl, fun σ => Bool.false_or _⟩
    · cases l <;> exact ⟨_, rfl, fun σ => Bool.or_false _⟩

theorem sound_SimplificationWithFalse : RuleSound SimplificationWithFalse := by
  intro e h
  cases e <;> try (simp only [SimplificationWithFalse] at h; exact absurd h (by decide))
  case Disjunction l r =>
    rw [show SimplificationWithFalse.canApply (.Disjunction l r) =
      (isTrueConstant l || isTrueConstant r) from rfl, Bool.or_eq_true,
      isTrueConstant_eq, isTrueConstant_eq] at h
    rcases h with rfl | rfl
    · exact ⟨_, rfl, fun σ => Bool.true_or _⟩
    · exact ⟨_, rfl, fun σ => Bool.or_true _⟩
  case Conjunction l r =>
    rw [show SimplificationWithFalse.canApply (.Conjunction l r) =
      (isFalseConstant l || isFalseConstant r) from rfl, Bool.or_eq_true,
      isFalseConstant_eq, isFalseConstant_eq] at h
    rcases h with rfl | rfl
    · exact ⟨_, rfl, fun σ => Bool.false_and _⟩
    · exact ⟨_, rfl, fun σ => Bool.and_false _⟩

theorem sound_Simplification1AndReverse : RuleSound Simplification1AndReverse :=
  fun e _ => ⟨_, rfl, fun σ => (Bool.and_true _).symm⟩

theorem sound_Simplification1OrReverse : RuleSound Simplification1OrReverse :=
  fun e _ => ⟨_, rfl, fun σ => (Bool.or_false _).symm⟩

theorem sound_Simplification1True : RuleSound Simplification1True := by
  intro e h
  cases e <;> try (simp only [Simplification1True] at h; exact absurd h (by decide))
  case Disjunction l r =>
    rw [show Simplification1True.canApply (.Disjunction l r) =
      (isTrueConstant l || isTrueConstant r) from rfl, Bool.or_eq_true,
      isTrueConstant_eq, isTrueConstant_eq] at h
    rcases h with rfl | rfl
    · exact ⟨_, rfl, fun σ => Bool.true_or _⟩
    · exact ⟨_, rfl, fun σ => Bool.or_true _⟩

theorem sound_Simplification1False : RuleSound Simplification1False := by
  intro e h
  cases e <;> try (simp only [Simplification1False] at h; exact absurd h (by decide))
  case Conjunction l r =>
    rw [show Simplification1False.canApply (.Conjunction l r) =
      (isFalseConstant l || isFalseConstant r) from rfl, Bool.or_eq_true,
      isFalseConstant_eq, isFalseConstant_eq] at h
    rcases h with rfl | rfl
    · exact ⟨_, rfl, fun σ => Bool.false_and _⟩
    · exact ⟨_, rfl, fun σ => Bool.and_false _⟩

theorem sound_Simplification2Or : RuleSound Simplification2Or := by
  intro e h
  cases e <;> try (simp only [Simplification2Or] at h; exact absurd h (by decide))
  case Disjunction l r =>
    cases r <;> cases l <;>
      simp only [Simplification2Or, Bool.or_eq_true, equals_iff_eq] at h <;>
      first
      | exact absurd h (by decide)
      | (rcases h with rfl | rfl <;>
         exact ⟨_, rfl, fun σ => by
           first
           | exact bool_absorb₁ _ _
           | exact bool_absorb₂ _ _
           | exact bool_absorb₃ _ _
           | exact bool_absorb₄ _ _⟩)

theorem sound_Simplification2And : RuleSound Simplification2And := by
  intro e h
  cases e <;> try (simp only [Simplification2And] at h; exact absurd h (by decide))
  case Conjunction l r =>
    cases r <;> cases l <;>
      simp only [Simplification2And, Bool.or_eq_true, equals_iff_eq] at h <;>
      first
      | exact absurd h (by decide)
      | (rcases h with rfl | rfl <;>
         exact ⟨_, rfl, fun σ => by
           first
           | exact bool_absorb₅ _ _
           | exact bool_absorb₆ _ _
           | exact bool_absorb₇ _ _
           | exact bool_absorb₈ _ _⟩)

/-- C1: for every transformation rule `r` in the catalogue
`ALL_TRANSFORMATION_RULES` and every Boolean expression `e` such that
`r.canApply(e)` is true, `r.apply(e)` succeeds, `evaluate(e, σ)` equals
`evaluate(r.apply(e), σ)` for every total assignment `σ`, and also for every
partial assignment that maps every variable of
`vars(e) ∪ vars(r.apply(e))` to a boolean. -/
theorem C1_rule_soundness :
    ∀ r ∈ ALL_TRANSFORMATION_RULES, ∀ e, r.canApply e = true →
      ∃ e', r.apply e = Except.ok e' ∧
        (∀ σ : String → Bool, e.evaluate σ = e'.evaluate σ) ∧
        ∀ σ : List (String × Bool),
          (∀ v, v ∈ e.getVariables ∨ v ∈ e'.getVariables → (σ.lookup v).isSome) →
          e.evaluateOpt σ = e'.evaluateOpt σ := by
  intro r hr e h
  have key : ∃ e', r.apply e = Except.ok e' ∧
      ∀ σ : String → Bool, e.evaluate σ = e'.evaluate σ := by
    simp only [ALL_TRANSFORMATION_RULES, List.mem_cons,
      List.not_mem_nil, or_false] at hr
    rcases hr with rfl | rfl | rfl | rfl | rfl | rfl | rfl | rfl | rfl | rfl | rfl | rfl |
      rfl | rfl | rfl | rfl | rfl | rfl | rfl | rfl | rfl | rfl | rfl | rfl | rfl | rfl |
      rfl | rfl | rfl | rfl | rfl | rfl
    exacts [sound_CommutativityAND e h, sound_CommutativityOR e h,
      sound_CommutativityIFF e h, sound_CommutativityANDAND e h,
      sound_CommutativityOROR e h, sound_DoubleNegation e h,
      sound_ExcludedMiddle e h, sound_Contradiction e h,
      sound_DeMorganAND e h, sound_DeMorganOR e h,
      sound_DeMorganANDReverse e h, sound_DeMorganORReverse e h,
      sound_ImplicationElimination e h, sound_ImplicationEliminationReverse e h,
      sound_Contrapositive e h, sound_DistributivityAND e h,
      sound_DistributivityOR e h, sound_DistributivityANDReverse e h,
      sound_DistributivityORReverse e h, sound_Idempotence e h,
      sound_IdempotenceReverseOR e h, sound_IdempotenceReverseAND e h,
      sound_Equivalence e h, sound_EquivalenceReverse e h,
      sound_SimplificationWithTrue e h, sound_SimplificationWithFalse e h,
      sound_Simplification1AndReverse e h, sound_Simplification1OrReverse e h,
      sound_Simplification1True e h, sound_Simplification1False e h,
      sound_Simplification2Or e h, sound_Simplification2And e h]
  obtain ⟨e', ha, hsem⟩ := key
  refine ⟨e', ha, hsem, fun σ hcov => ?_⟩
  rw [evaluateOpt_total e σ
      (fun v hv => hcov v (Or.inl (mem_getVariables.2 hv))),
    evaluateOpt_total e' σ
      (fun v hv => hcov v (Or.inr (mem_getVariables.2 hv))),
    hsem]

/-- Witness for C1 at a concrete rule and input: commutativity of AND on
`P ∧ Q`. -/
theorem C1_rule_soundness_witness :
    CommutativityAND ∈ ALL_TRANSFORMATION_RULES ∧
    CommutativityAND.canApply
      (.Conjunction (.Variable "P") (.Variable "Q")) = true ∧
    ∃ e', CommutativityAND.apply
        (.Conjunction (.Variable "P") (.Variable "Q")) = Except.ok e' ∧
      (∀ σ : String → Bool,
        BooleanExpression.evaluate
          (.Conjunction (.Variable "P") (.Variable "Q")) σ = e'.evaluate σ) ∧
      ∀ σ : List (String × Bool),
        (∀ v, v ∈ BooleanExpression.getVariables
            (.Conjunction (.Variable "P") (.Variable "Q")) ∨
            v ∈ e'.getVariables → (σ.lookup v).isSome) →
        BooleanExpression.evaluateOpt
          (.Conjunction (.Variable "P") (.Variable "Q")) σ = e'.evaluateOpt σ :=
  have hm : CommutativityAND ∈ ALL_TRANSFORMATION_RULES :=
    List.mem_cons_self _ _
  ⟨hm, rfl, C1_rule_soundness CommutativityAND hm
    (.Conjunction (.Variable "P") (.Variable "Q")) rfl⟩


/-- `ExcludedMiddle.apply` re-checks `canApply` in the source; extensionally
it is the guarded form below. -/
theorem em_apply_eq : ∀ e, ExcludedMiddle.apply e =
    if ExcludedMiddle.canApply e then Except.ok .TrueConstant
    else Except.error "Cannot apply excluded middle rule" := by
  intro e
  cases e <;> try rfl
  case Disjunction l r => cases r <;> cases l <;> rfl

/-- `Contradiction.apply` re-checks `canApply` in the source; extensionally
it is the guarded form below. -/
theorem contr_apply_eq : ∀ e, Contradiction.apply e =
    if Contradiction.canApply e then Except.ok .FalseConstant
    else Except.error "Cannot apply contradiction rule" := by
  intro e
  cases e <;> try rfl
  case Conjunction l r => cases r <;> cases l <;> rfl

/-- A rule raises on every input its `canApply` rejects. -/
def RuleGuarded (r : TransformationRule) : Prop :=
  ∀ e, r.canApply e = false → ∃ msg, r.apply e = Except.error msg

theorem err_CommutativityAND : RuleGuarded CommutativityAND := by
  intro e h
  cases e <;> first
  | exact ⟨_, rfl⟩
  | simp [CommutativityAND] at h

theorem err_CommutativityOR : RuleGuarded CommutativityOR := by
  intro e h
  cases e <;> first
  | exact ⟨_, rfl⟩
  | simp [CommutativityOR] at h

theorem err_CommutativityIFF : RuleGuarded CommutativityIFF := by
  intro e h
  cases e <;> first
  | exact ⟨_, rfl⟩
  | simp [CommutativityIFF] at h

theorem err_CommutativityANDAND : RuleGuarded CommutativityANDAND := by
  intro e h
  cases e <;> try exact ⟨_, rfl⟩
  case Conjunction l r =>
    cases l <;> first
    | exact ⟨_, rfl⟩
    | simp [CommutativityANDAND] at h

theorem err_CommutativityOROR : RuleGuarded CommutativityOROR := by
  intro e h
  cases e <;> try exact ⟨_, rfl⟩
  case Disjunction l r =>
    cases l <;> first
    | exact ⟨_, rfl⟩
    | simp [CommutativityOROR] at h

theorem err_DoubleNegation : RuleGuarded DoubleNegation := by
  intro e h
  cases e <;> try exact ⟨_, rfl⟩
  case Negation a =>
    cases a <;> first
    | exact ⟨_, rfl⟩
    | simp [DoubleNegation] at h

theorem err_ExcludedMiddle : RuleGuarded ExcludedMiddle := by
  intro e h
  refine ⟨"Cannot apply excluded middle rule", ?_⟩
  rw [em_apply_eq, h]
  rfl

theorem err_Contradiction : RuleGuarded Contradiction := by
  intro e h
  refine ⟨"Cannot apply contradiction rule", ?_⟩
  rw [contr_apply_eq, h]
  rfl

theorem err_DeMorganAND : RuleGuarded DeMorganAND := by
  intro e h
  cases e <;> try exact ⟨_, rfl⟩
  case Negation a =>
    cases a <;> first
    | exact ⟨_, rfl⟩
    | simp [DeMorganAND] at h

theorem err_DeMorganOR : RuleGuarded DeMorganOR := by
  intro e h
  cases e <;> try exact ⟨_, rfl⟩
  case Negation a =>
    cases a <;> first
    | exact ⟨_, rfl⟩
    | simp [DeMorganOR] at h

theorem err_DeMorganANDReverse : RuleGuarded DeMorganANDReverse := by
  intro e h
  cases e <;> try exact ⟨_, rfl⟩
  case Disjunction l r =>
    cases l <;> cases r <;> first
    | exact ⟨_, rfl⟩
    | simp [DeMorganANDReverse] at h

theorem err_DeMorganORReverse : RuleGuarded DeMorganORReverse := by
  intro e h
  cases e <;> try exact ⟨_, rfl⟩
  case Conjunction l r =>
    cases l <;> cases r <;> first
    | exact ⟨_, rfl⟩
    | simp [DeMorganORReverse] at h

theorem err_ImplicationElimination : RuleGuarded ImplicationElimination := by
  intro e h
  cases e <;> first
  | exact ⟨_, rfl⟩
  | simp [ImplicationElimination] at h

theorem err_ImplicationEliminationReverse : RuleGuarded ImplicationEliminationReverse := by
  intro e h
  cases e <;> try exact ⟨_, rfl⟩
  case Disjunction l r =>
    cases l <;> first
    | exact ⟨_, rfl⟩
    | simp [ImplicationEliminationReverse] at h

theorem err_DistributivityAND : RuleGuarded DistributivityAND := by
  intro e h
  cases e <;> try exact ⟨_, rfl⟩
  case Conjunction l r =>
    cases r <;> first
    | exact ⟨_, rfl⟩
    | simp [DistributivityAND] at h

theorem err_DistributivityOR : RuleGuarded DistributivityOR := by
  intro e h
  cases e <;> try exact ⟨_, rfl⟩
  case Disjunction l r =>
    cases r <;> first
    | exact ⟨_, rfl⟩
    | simp [DistributivityOR] at h

theorem err_Equivalence : RuleGuarded Equivalence := by
  intro e h
  cases e <;> first
  | exact ⟨_, rfl⟩
  | simp [Equivalence] at h

theorem err_SimplificationWithTrue : RuleGuarded SimplificationWithTrue := by
  intro e h
  cases e <;> try exact ⟨_, rfl⟩
  case Conjunction l r =>
    cases l <;> cases r <;> first
    | exact ⟨_, rfl⟩
    | simp [SimplificationWithTrue, isTrueConstant, isFalseConstant] at h
  case Disjunction l r =>
    cases l <;> cases r <;> first
    | exact ⟨_, rfl⟩
    | simp [SimplificationWithTrue, isTrueConstant, isFalseConstant] at h

/-- The catalogue rules whose `apply` fully re-checks applicability before
rewriting (the other 14 rules of the catalogue return a result on at least
one input their `canApply` rejects). -/
def fullyGuardedRules : List TransformationRule :=
  [CommutativityAND, CommutativityOR, CommutativityIFF, CommutativityANDAND,
   CommutativityOROR, DoubleNegation, ExcludedMiddle, Contradiction,
   DeMorganAND, DeMorganOR, DeMorganANDReverse, DeMorganORReverse,
   ImplicationElimination, ImplicationEliminationReverse,
   DistributivityAND, DistributivityOR, Equivalence, SimplificationWithTrue]

/-- C4 counterexample: `IdempotenceReverseOR` is in the catalogue, rejects
`P ∨ P` via `canApply`, and yet `apply` returns `(P ∨ P) ∨ (P ∨ P)` without
raising. -/
theorem C4_counterexample :
    IdempotenceReverseOR ∈ ALL_TRANSFORMATION_RULES ∧
    IdempotenceReverseOR.canApply
      (.Disjunction (.Variable "P") (.Variable "P")) = false ∧
    IdempotenceReverseOR.apply
      (.Disjunction (.Variable "P") (.Variable "P")) =
      Except.ok (.Disjunction
        (.Disjunction (.Variable "P") (.Variable "P"))
        (.Disjunction (.Variable "P") (.Variable "P"))) := by
  refine ⟨?_, rfl, rfl⟩
  unfold ALL_TRANSFORMATION_RULES
  repeat first
    | exact List.mem_cons_self _ _
    | apply List.mem_cons_of_mem

/-- C4 amended: only the rules whose `apply` re-checks its guard raise an
error on every input `canApply` rejects; these are the 18 rules of
`fullyGuardedRules`. Rules such as `IdempotenceReverseOR` return a result
instead. -/
theorem C4_amended_guarded_rules_raise :
    ∀ r ∈ fullyGuardedRules, ∀ e, r.canApply e = false →
      ∃ msg, r.apply e = Except.error msg := by
  intro r hr
  simp only [fullyGuardedRules, List.mem_cons, List.not_mem_nil, or_false] at hr
  rcases hr with rfl | rfl | rfl | rfl | rfl | rfl | rfl | rfl | rfl | rfl | rfl | rfl |
    rfl | rfl | rfl | rfl | rfl | rfl
  exacts [err_CommutativityAND, err_CommutativityOR, err_CommutativityIFF,
    err_CommutativityANDAND, err_CommutativityOROR, err_DoubleNegation,
    err_ExcludedMiddle, err_Contradiction, err_DeMorganAND, err_DeMorganOR,
    err_DeMorganANDReverse, err_DeMorganORReverse, err_ImplicationElimination,
    err_ImplicationEliminationReverse, err_DistributivityAND,
    err_DistributivityOR, err_Equivalence, err_SimplificationWithTrue]

/-- Witness for the amended C4: `CommutativityAND` rejects a bare variable
and its `apply` raises there. -/
theorem C4_amended_witness :
    CommutativityAND ∈ fullyGuardedRules ∧
    CommutativityAND.canApply (.Variable "P") = false ∧
    ∃ msg, CommutativityAND.apply (.Variable "P") = Except.error msg :=
  ⟨List.mem_cons_self _ _, rfl,
    C4_amended_guarded_rules_raise CommutativityAND
      (List.mem_cons_self _ _) (.Variable "P") rfl⟩


/-! ### Hash injectivity (C6) -/

/-- ASCII letter test, the `[a-zA-Z]` class of the source regex. -/
def isAsciiLetter (c : Char) : Bool :=
  ('A' ≤ c && c ≤ 'Z') || ('a' ≤ c && c ≤ 'z')

/-- The word class `[A-Za-z0-9_]` of the source regex. -/
def isWordChar (c : Char) : Bool :=
  isAsciiLetter c || ('0' ≤ c && c ≤ '9') || c == '_'

/-- The variable-name regex test from `constructor.ts`: one ASCII letter
followed by word characters. -/
def matchesVariableRegex (s : String) : Bool :=
  match s.data with
  | [] => false
  | c :: cs => isAsciiLetter c && cs.all isWordChar

/-- The reserved words of `isValidVariableName` in `constructor.ts`. -/
def reservedWords : List String :=
  ["true", "false", "&", "|", "!", "=>", "<=>", "(", ")"]

/-- `isValidVariableName` from `constructor.ts`: not reserved and matching
the variable-name regex. -/
def isValidVariableName (tok : String) : Bool :=
  !(reservedWords.contains tok) && matchesVariableRegex tok

/-- Every variable name in the expression is a valid variable name. -/
def hasValidNames : BooleanExpression → Bool
  | .Variable n => isValidVariableName n
  | .TrueConstant => true
  | .FalseConstant => true
  | .Negation e => hasValidNames e
  | .Conjunction l r => hasValidNames l && hasValidNames r
  | .Disjunction l r => hasValidNames l && hasValidNames r
  | .Implication l r => hasValidNames l && hasValidNames r
  | .Biconditional l r => hasValidNames l && hasValidNames r

theorem wordChars_of_valid {tok : String} (h : isValidVariableName tok = true) :
    ∀ c ∈ tok.data, isWordChar c = true := by
  simp only [isValidVariableName, Bool.and_eq_true] at h
  obtain ⟨-, hr⟩ := h
  unfold matchesVariableRegex at hr
  intro c hc
  cases hd : tok.data with
  | nil => rw [hd] at hc; simp at hc
  | cons a cs =>
      rw [hd] at hr hc
      simp only [Bool.and_eq_true, List.all_eq_true] at hr
      rcases List.mem_cons.1 hc with rfl | hc'
      · simp [isWordChar, hr.1]
      · exact hr.2 c hc'

/-- The character list of `getHash`, written out with list constructors. -/
def hashChars : BooleanExpression → List Char
  | .Variable n => 'V' :: 'A' :: 'R' :: '(' :: (n.data ++ [')'])
  | .TrueConstant => ['T', 'R', 'U', 'E']
  | .FalseConstant => ['F', 'A', 'L', 'S', 'E']
  | .Negation e => 'N' :: 'O' :: 'T' :: '(' :: (hashChars e ++ [')'])
  | .Conjunction l r =>
      'A' :: 'N' :: 'D' :: '(' :: (hashChars l ++ ',' :: ' ' :: (hashChars r ++ [')']))
  | .Disjunction l r =>
      'O' :: 'R' :: '(' :: (hashChars l ++ ',' :: ' ' :: (hashChars r ++ [')']))
  | .Implication l r =>
      'I' :: 'M' :: 'P' :: '(' :: (hashChars l ++ ',' :: ' ' :: (hashChars r ++ [')']))
  | .Biconditional l r =>
      'I' :: 'F' :: 'F' :: '(' :: (hashChars l ++ ',' :: ' ' :: (hashChars r ++ [')']))

theorem getHash_data : ∀ e : BooleanExpression, e.getHash.data = hashChars e := by
  intro e
  induction e with
  | Variable n => simp [getHash, hashChars, String.data_append]
  | TrueConstant => rfl
  | FalseConstant => rfl
  | Negation a ih => simp [getHash, hashChars, String.data_append, ih]
  | Conjunction a b iha ihb => simp [getHash, hashChars, String.data_append, iha, ihb]
  | Disjunction a b iha ihb => simp [getHash, hashChars, String.data_append, iha, ihb]
  | Implication a b iha ihb => simp [getHash, hashChars, String.data_append, iha, ihb]
  | Biconditional a b iha ihb => simp [getHash, hashChars, String.data_append, iha, ihb]

/-- Word-character strings are closed off by the `)` terminator: a name
followed by `)` determines the name. -/
theorem wordChars_strip : ∀ (xs ys zs ws : List Char),
    (∀ c ∈ xs, isWordChar c = true) → (∀ c ∈ ys, isWordChar c = true) →
    xs ++ ')' :: zs = ys ++ ')' :: ws → xs = ys ∧ zs = ws := by
  intro xs
  induction xs with
  | nil =>
      intro ys zs ws _ hys heq
      cases ys with
      | nil => simpa using heq
      | cons y ys' =>
          simp only [List.nil_append, List.cons_append, List.cons.injEq] at heq
          have hw := hys y (by simp)
          rw [← heq.1] at hw
          exact absurd hw (by decide)
  | cons x xs' ih =>
      intro ys zs ws hxs hys heq
      cases ys with
      | nil =>
          simp only [List.cons_append, List.nil_append, List.cons.injEq] at heq
          have hw := hxs x (by simp)
          rw [heq.1] at hw
          exact absurd hw (by decide)
      | cons y ys' =>
          simp only [List.cons_append, List.cons.injEq] at heq
          obtain ⟨rfl, heq2⟩ := heq
          obtain ⟨h1, h2⟩ := ih ys' zs ws
            (fun c hc => hxs c (by simp [hc])) (fun c hc => hys c (by simp [hc])) heq2
          exact ⟨by rw [h1], h2⟩

/-- Prefix-determinism of the hash encoding: over expressions with valid
variable names, equal hash prefixes force equal expressions and equal
remainders. -/
theorem hashChars_inj : ∀ e1 : BooleanExpression, hasValidNames e1 = true →
    ∀ e2 : BooleanExpression, hasValidNames e2 = true →
    ∀ s1 s2 : List Char, hashChars e1 ++ s1 = hashChars e2 ++ s2 →
    e1 = e2 ∧ s1 = s2 := by
  intro e1
  induction e1 with
  | Variable n =>
      intro h1 e2 h2 s1 s2 heq
      simp only [hasValidNames] at h1
      cases e2 <;>
        simp only [hashChars, List.cons_append, List.append_assoc,
          List.singleton_append, List.nil_append, List.cons.injEq,
          eq_self_iff_true, true_and] at heq <;>
        try exact absurd heq.1 (by decide)
      case Variable m =>
        simp only [hasValidNames] at h2
        obtain ⟨hn, hs⟩ := wordChars_strip n.data m.data s1 s2
          (wordChars_of_valid h1) (wordChars_of_valid h2) heq
        have hnm : n = m := by cases n; cases m; exact congrArg String.mk hn
        exact ⟨by rw [hnm], hs⟩
  | TrueConstant =>
      intro h1 e2 h2 s1 s2 heq
      cases e2 <;>
        simp only [hashChars, List.cons_append, List.append_assoc,
          List.singleton_append, List.nil_append, List.cons.injEq,
          eq_self_iff_true, true_and] at heq <;>
        try exact absurd heq.1 (by decide)
      case TrueConstant => exact ⟨rfl, heq⟩
  | FalseConstant =>
      intro h1 e2 h2 s1 s2 heq
      cases e2 <;>
        simp only [hashChars, List.cons_append, List.append_assoc,
          List.singleton_append, List.nil_append, List.cons.injEq,
          eq_self_iff_true, true_and] at heq <;>
        try exact absurd heq.1 (by decide)
      case FalseConstant => exact ⟨rfl, heq⟩
  | Negation a ih =>
      intro h1 e2 h2 s1 s2 heq
      simp only [hasValidNames] at h1
      cases e2 <;>
        simp only [hashChars, List.cons_append, List.append_assoc,
          List.singleton_append, List.nil_append, List.cons.injEq,
          eq_self_iff_true, true_and] at heq <;>
        try exact absurd heq.1 (by decide)
      case Negation b =>
        simp only [hasValidNames] at h2
        obtain ⟨hab, htail⟩ := ih h1 b h2 (')' :: s1) (')' :: s2) heq
        simp only [List.cons.injEq, true_and] at htail
        exact ⟨by rw [hab], htail⟩
  | Conjunction a b iha ihb =>
      intro h1 e2 h2 s1 s2 heq
      simp only [hasValidNames, Bool.and_eq_true] at h1
      cases e2 <;>
        simp only [hashChars, List.cons_append, List.append_assoc,
          List.singleton_append, List.nil_append, List.cons.injEq,
          eq_self_iff_true, true_and] at heq <;>
        try exact absurd heq.1 (by decide)
      case Conjunction c d =>
        simp only [hasValidNames, Bool.and_eq_true] at h2
        obtain ⟨hac, htail⟩ := iha h1.1 c h2.1 _ _ heq
        simp only [List.cons.injEq, true_and] at htail
        obtain ⟨hbd, htail2⟩ := ihb h1.2 d h2.2 (')' :: s1) (')' :: s2) htail
        simp only [List.cons.injEq, true_and] at htail2
        exact ⟨by rw [hac, hbd], htail2⟩
  | Disjunction a b iha ihb =>
      intro h1 e2 h2 s1 s2 heq
      simp only [hasValidNames, Bool.and_eq_true] at h1
      cases e2 <;>
        simp only [hashChars, List.cons_append, List.append_assoc,
          List.singleton_append, List.nil_append, List.cons.injEq,
          eq_self_iff_true, true_and] at heq <;>
        try exact absurd heq.1 (by decide)
      case Disjunction c d =>
        simp only [hasValidNames, Bool.and_eq_true] at h2
        obtain ⟨hac, htail⟩ := iha h1.1 c h2.1 _ _ heq
        simp only [List.cons.injEq, true_and] at htail
        obtain ⟨hbd, htail2⟩ := ihb h1.2 d h2.2 (')' :: s1) (')' :: s2) htail
        simp only [List.cons.injEq, true_and] at htail2
        exact ⟨by rw [hac, hbd], htail2⟩
  | Implication a b iha ihb =>
      intro h1 e2 h2 s1 s2 heq
      simp only [hasValidNames, Bool.and_eq_true] at h1
      cases e2 <;>
        simp only [hashChars, List.cons_append, List.append_assoc,
          List.singleton_append, List.nil_append, List.cons.injEq,
          eq_self_iff_true, true_and] at heq <;>
        try exact absurd heq.1 (by decide)
      case Implication c d =>
        simp only [hasValidNames, Bool.and_eq_true] at h2
        obtain ⟨hac, htail⟩ := iha h1.1 c h2.1 _ _ heq
        simp only [List.cons.injEq, true_and] at htail
        obtain ⟨hbd, htail2⟩ := ihb h1.2 d h2.2 (')' :: s1) (')' :: s2) htail
        simp only [List.cons.injEq, true_and] at htail2
        exact ⟨by rw [hac, hbd], htail2⟩
  | Biconditional a b iha ihb =>
      intro h1 e2 h2 s1 s2 heq
      simp only [hasValidNames, Bool.and_eq_true] at h1
      cases e2 <;>
        simp only [hashChars, List.cons_append, List.append_assoc,
          List.singleton_append, List.nil_append, List.cons.injEq,
          eq_self_iff_true, true_and] at heq <;>
        try exact absurd heq.1 (by decide)
      case Biconditional c d =>
        simp only [hasValidNames, Bool.and_eq_true] at h2
        obtain ⟨hac, htail⟩ := iha h1.1 c h2.1 _ _ heq
        simp only [List.cons.injEq, true_and] at htail
        obtain ⟨hbd, htail2⟩ := ihb h1.2 d h2.2 (')' :: s1) (')' :: s2) htail
        simp only [List.cons.injEq, true_and] at htail2
        exact ⟨by rw [hac, hbd], htail2⟩

/-- Hashes of valid-name expressions coincide exactly when the expressions
are structurally equal. -/
theorem getHash_inj {e1 e2 : BooleanExpression}
    (h1 : hasValidNames e1 = true) (h2 : hasValidNames e2 = true)
    (h : e1.getHash = e2.getHash) : e1 = e2 := by
  have hd : hashChars e1 ++ [] = hashChars e2 ++ [] := by
    simp only [List.append_nil]
    rw [← getHash_data, ← getHash_data, h]
  exact (hashChars_inj e1 h1 e2 h2 [] [] hd).1

/-- C6: for expressions whose variable names match `[A-Za-z][A-Za-z0-9_]*`
and are not reserved words, `equals` holds iff the `getHash` strings match;
under that precondition `getHash` is injective over the AST structure. -/
theorem C6_equals_iff_getHash :
    ∀ e1 e2 : BooleanExpression,
      hasValidNames e1 = true → hasValidNames e2 = true →
      (e1.equals e2 = true ↔ e1.getHash = e2.getHash) := by
  intro e1 e2 h1 h2
  constructor
  · intro h
    rw [(equals_iff_eq e1 e2).1 h]
  · intro h
    exact (equals_iff_eq e1 e2).2 (getHash_inj h1 h2 h)

/-- Witness for C6 on the concrete expressions `P ∧ Q` and `Q ∧ P`. -/
theorem C6_equals_iff_getHash_witness :
    hasValidNames (.Conjunction (.Variable "P") (.Variable "Q")) = true ∧
    hasValidNames (.Conjunction (.Variable "Q") (.Variable "P")) = true ∧
    (BooleanExpression.equals
        (.Conjunction (.Variable "P") (.Variable "Q"))
        (.Conjunction (.Variable "Q") (.Variable "P")) = true ↔
      BooleanExpression.getHash (.Conjunction (.Variable "P") (.Variable "Q")) =
      BooleanExpression.getHash (.Conjunction (.Variable "Q") (.Variable "P"))) :=
  ⟨by decide, by decide,
    C6_equals_iff_getHash
      (.Conjunction (.Variable "P") (.Variable "Q"))
      (.Conjunction (.Variable "Q") (.Variable "P"))
      (by decide) (by decide)⟩

/-! ### Truth tables (`truthTable.ts`): C7, C10 -/

/-- `MAX_TRUTH_TABLE_VARIABLES` from `truthTable.ts`. -/
def MAX_TRUTH_TABLE_VARIABLES : Nat := 15

/-- Result shape of `validateVariableCount` from `truthTable.ts` (the error
message text is elided). -/
structure VariableCountValidation where
  valid : Bool
  variableCount : Nat
  deriving Repr, DecidableEq

/-- `validateVariableCount` from `truthTable.ts`. -/
def validateVariableCount (e : BooleanExpression) : VariableCountValidation :=
  let variableCount := (getVariables e).length
  if variableCount > MAX_TRUTH_TABLE_VARIABLES then
    { valid := false, variableCount := variableCount }
  else
    { valid := true, variableCount := variableCount }

/-- `TruthTableRow` from `truthTable.ts`; the record assignment is an
association list. -/
structure TruthTableRow where
  assignment : List (String × Bool)
  result : Bool
  deriving Repr, DecidableEq

/-- `TruthTable` from `truthTable.ts`; `varList` models its `variables`
field (that identifier is reserved in Lean). -/
structure TruthTable where
  varList : List String
  rows : List TruthTableRow
  expression : BooleanExpression
  deriving Repr, DecidableEq

/-- The inner assignment loop of `generateTruthTable`:
`assignment[variables[j]] = f j` for each position `j` in order. -/
def assignmentFor : List String → (Nat → Bool) → List (String × Bool)
  | [], _ => []
  | v :: vs, f => (v, f 0) :: assignmentFor vs (fun j => f (j + 1))

/-- `Array.from(expression.getVariables()).sort()` from `generateTruthTable`:
the variable set sorted ascending (the JS default string sort). -/
def sortedVariables (e : BooleanExpression) : List String :=
  List.insertionSort (fun a b => a ≤ b) (getVariables e)

/-- One row of `generateTruthTable` for row index `i`: variable at sorted
position `j` is assigned `(i >> (vars.length - 1 - j)) & 1`, and the result
records the evaluation (the `catch` branch records `false`, modelled by
`Option.getD false` over the partial evaluator). -/
def truthTableRow (e : BooleanExpression) (vars : List String) (i : Nat) :
    TruthTableRow :=
  let assignment := assignmentFor vars
    (fun j => ((i >>> (vars.length - 1 - j)) &&& 1) == 1)
  { assignment := assignment,
    result := (e.evaluateOpt assignment).getD false }

/-- `generateTruthTable` from `truthTable.ts`: sort the variables
ascending, reject more than 15 of them, then enumerate the rows in index
order `0..2^k-1`. -/
def generateTruthTable (e : BooleanExpression) : Except String TruthTable :=
  let varList := sortedVariables e
  let validation := validateVariableCount e
  if !validation.valid then
    Except.error "Too many variables"
  else
    let numRows := 2 ^ varList.length
    Except.ok { varList := varList,
                rows := (List.range numRows).map (truthTableRow e varList),
                expression := e }

theorem assignmentFor_keys : ∀ (vars : List String) (f : Nat → Bool),
    (assignmentFor vars f).map Prod.fst = vars := by
  intro vars
  induction vars with
  | nil => intro f; rfl
  | cons v vs ih => intro f; simp [assignmentFor, ih]

theorem assignmentFor_lookup_isSome : ∀ (vars : List String) (f : Nat → Bool)
    (v : String), v ∈ vars → ((assignmentFor vars f).lookup v).isSome = true := by
  intro vars
  induction vars with
  | nil => intro f v hv; simp at hv
  | cons w ws ih =>
      intro f v hv
      by_cases hvw : v = w
      · subst hvw
        simp only [assignmentFor, List.lookup, beq_self_eq_true]
        rfl
      · have hbeq : (v == w) = false := beq_eq_false_iff_ne.2 hvw
        have hv' : v ∈ ws := by
          rcases List.mem_cons.1 hv with rfl | hv'
          · exact absurd rfl hvw
          · exact hv'
        simp only [assignmentFor, List.lookup, hbeq]
        exact ih (fun j => f (j + 1)) v hv'

theorem assignmentFor_lookup_get : ∀ (vars : List String) (f : Nat → Bool),
    vars.Nodup → ∀ (j : Nat) (hj : j < vars.length),
    (assignmentFor vars f).lookup (vars.get ⟨j, hj⟩) = some (f j) := by
  intro vars
  induction vars with
  | nil => intro f _ j hj; simp at hj
  | cons w ws ih =>
      intro f hnd j hj
      cases j with
      | zero =>
          simp only [assignmentFor, List.get, List.lookup, beq_self_eq_true]
      | succ j' =>
          have hj' : j' < ws.length := Nat.lt_of_succ_lt_succ hj
          have hne : ws.get ⟨j', hj'⟩ ≠ w := by
            intro hcontra
            exact (List.nodup_cons.1 hnd).1 (hcontra ▸ List.get_mem ws j' hj')
          have hbeq : (ws.get ⟨j', hj'⟩ == w) = false := beq_eq_false_iff_ne.2 hne
          simp only [assignmentFor, List.get, List.lookup, hbeq]
          exact ih (fun j => f (j + 1)) (List.nodup_cons.1 hnd).2 j' hj'

theorem sortedVariables_perm (e : BooleanExpression) :
    (sortedVariables e).Perm (getVariables e) :=
  List.perm_insertionSort _ _

theorem sortedVariables_sorted (e : BooleanExpression) :
    List.Sorted (fun a b : String => a ≤ b) (sortedVariables e) :=
  List.sorted_insertionSort _ _

theorem sortedVariables_nodup (e : BooleanExpression) :
    (sortedVariables e).Nodup :=
  ((sortedVariables_perm e).nodup_iff).2 (List.nodup_dedup _)

theorem sortedVariables_length (e : BooleanExpression) :
    (sortedVariables e).length = (getVariables e).length :=
  (sortedVariables_perm e).length_eq

theorem generateTruthTable_ok (e : BooleanExpression)
    (hk : (getVariables e).length ≤ MAX_TRUTH_TABLE_VARIABLES) :
    generateTruthTable e = Except.ok
      { varList := sortedVariables e,
        rows := (List.range (2 ^ (sortedVariables e).length)).map
          (truthTableRow e (sortedVariables e)),
        expression := e } := by
  unfold generateTruthTable validateVariableCount
  rw [if_neg (show ¬ (getVariables e).length > MAX_TRUTH_TABLE_VARIABLES by omega)]
  simp

theorem generateTruthTable_err (e : BooleanExpression)
    (hk : MAX_TRUTH_TABLE_VARIABLES < (getVariables e).length) :
    generateTruthTable e = Except.error "Too many variables" := by
  unfold generateTruthTable validateVariableCount
  rw [if_pos (show (getVariables e).length > MAX_TRUTH_TABLE_VARIABLES from hk)]
  simp

theorem get_map_range {α : Type} (f : Nat → α) (n i : Nat)
    (h : i < ((List.range n).map f).length) :
    ((List.range n).map f).get ⟨i, h⟩ = f i := by
  simp [List.get_eq_getElem, List.getElem_map, List.getElem_range]

theorem truthTableRow_covers (e : BooleanExpression) (i : Nat) :
    ∀ v ∈ e.varOccurrences,
      (((truthTableRow e (sortedVariables e) i).assignment).lookup v).isSome = true := by
  intro v hv
  apply assignmentFor_lookup_isSome
  exact ((sortedVariables_perm e).mem_iff).2 (mem_getVariables.2 hv)

theorem truthTableRow_result (e : BooleanExpression) (i : Nat) :
    (truthTableRow e (sortedVariables e) i).result =
      e.evaluate (fun v =>
        (((truthTableRow e (sortedVariables e) i).assignment).lookup v).getD false) := by
  have hcov := truthTableRow_covers e i
  show (e.evaluateOpt ((truthTableRow e (sortedVariables e) i).assignment)).getD false = _
  rw [evaluateOpt_total e _ hcov]
  rfl

/-- C7: for `k = |vars(e)| ≤ 15`, `generateTruthTable` returns the variable
list sorted ascending and exactly `2^k` rows in index order, where row `i`
assigns position `j` the bit `(i >> (k-1-j)) & 1` and records the
evaluation of `e` under that assignment; for `k > 15` it raises instead. -/
theorem C7_generateTruthTable :
    ∀ e : BooleanExpression,
      ((getVariables e).length ≤ 15 →
        ∃ t, generateTruthTable e = Except.ok t ∧
          List.Sorted (fun a b : String => a ≤ b) t.varList ∧
          t.varList.Perm (getVariables e) ∧
          t.rows.length = 2 ^ (getVariables e).length ∧
          ∀ i, i < 2 ^ (getVariables e).length →
            ∃ hr : i < t.rows.length,
              (∀ j, (hj : j < t.varList.length) →
                ((t.rows.get ⟨i, hr⟩).assignment).lookup (t.varList.get ⟨j, hj⟩) =
                  some (((i >>> (t.varList.length - 1 - j)) &&& 1) == 1)) ∧
              (t.rows.get ⟨i, hr⟩).result =
                e.evaluate (fun v =>
                  (((t.rows.get ⟨i, hr⟩).assignment).lookup v).getD false)) ∧
      (15 < (getVariables e).length →
        ∃ msg, generateTruthTable e = Except.error msg) := by
  intro e
  constructor
  · intro hk
    refine ⟨_, generateTruthTable_ok e hk, ?_, ?_, ?_, ?_⟩
    · exact sortedVariables_sorted e
    · exact sortedVariables_perm e
    · simp [sortedVariables_length]
    · intro i hi
      have hr : i < ((List.range (2 ^ (sortedVariables e).length)).map
          (truthTableRow e (sortedVariables e))).length := by
        simpa [sortedVariables_length] using hi
      refine ⟨hr, ?_, ?_⟩
      · intro j hj
        rw [get_map_range]
        show ((truthTableRow e (sortedVariables e) i).assignment).lookup _ = _
        unfold truthTableRow
        exact assignmentFor_lookup_get (sortedVariables e) _
          (sortedVariables_nodup e) j hj
      · rw [get_map_range]
        exact truthTableRow_result e i
  · intro hk
    exact ⟨_, generateTruthTable_err e hk⟩

/-- A sixteen-variable expression used to exercise the size rejection. -/
def sixteenVariableExpression : BooleanExpression :=
  .Conjunction (.Conjunction (.Conjunction (.Conjunction
    (.Conjunction (.Conjunction (.Conjunction (.Conjunction
    (.Conjunction (.Conjunction (.Conjunction (.Conjunction
    (.Conjunction (.Conjunction (.Conjunction
      (.Variable "a01") (.Variable "a02")) (.Variable "a03"))
      (.Variable "a04")) (.Variable "a05")) (.Variable "a06"))
      (.Variable "a07")) (.Variable "a08")) (.Variable "a09"))
      (.Variable "a10")) (.Variable "a11")) (.Variable "a12"))
      (.Variable "a13")) (.Variable "a14")) (.Variable "a15"))
      (.Variable "a16")

/-- Witness for C7: the single-variable expression `a` passes the size
check and yields a table; the sixteen-variable conjunction is rejected. -/
theorem C7_generateTruthTable_witness :
    ((BooleanExpression.getVariables (.Variable "a")).length ≤ 15 ∧
      ∃ t, generateTruthTable (.Variable "a") = Except.ok t) ∧
    (15 < (BooleanExpression.getVariables sixteenVariableExpression).length ∧
      ∃ msg, generateTruthTable sixteenVariableExpression = Except.error msg) :=
  ⟨⟨by decide,
    ((C7_generateTruthTable (.Variable "a")).1 (by decide)).elim
      (fun t ht => ⟨t, ht.1⟩)⟩,
   ⟨by decide, (C7_generateTruthTable sixteenVariableExpression).2 (by decide)⟩⟩

/-- C10: for at most 15 variables the table has exactly `2^k` rows, every
row assignment is keyed on exactly the sorted variable list, and the
internal evaluation always succeeds, so the error fallback that records
`result = false` is unreachable. -/
theorem C10_row_assignments_total :
    ∀ e : BooleanExpression, (getVariables e).length ≤ 15 →
      ∃ t, generateTruthTable e = Except.ok t ∧
        t.rows.length = 2 ^ (getVariables e).length ∧
        ∀ row ∈ t.rows,
          row.assignment.map Prod.fst = t.varList ∧
          ∃ b, e.evaluateOpt row.assignment = some b ∧ row.result = b := by
  intro e hk
  refine ⟨_, generateTruthTable_ok e hk, by simp [sortedVariables_length], ?_⟩
  intro row hrow
  simp only [List.mem_map, List.mem_range] at hrow
  obtain ⟨i, -, rfl⟩ := hrow
  constructor
  · show (truthTableRow e (sortedVariables e) i).assignment.map Prod.fst = _
    unfold truthTableRow
    exact assignmentFor_keys _ _
  · refine ⟨e.evaluate (fun v =>
      (((truthTableRow e (sortedVariables e) i).assignment).lookup v).getD false), ?_, ?_⟩
    · exact evaluateOpt_total e _ (truthTableRow_covers e i)
    · exact truthTableRow_result e i

/-- Witness for C10 at the single-variable expression `a`. -/
theorem C10_row_assignments_total_witness :
    (BooleanExpression.getVariables (.Variable "a")).length ≤ 15 ∧
    ∃ t, generateTruthTable (.Variable "a") = Except.ok t ∧
      t.rows.length = 2 ^ (BooleanExpression.getVariables (.Variable "a")).length ∧
      ∀ row ∈ t.rows,
        row.assignment.map Prod.fst = t.varList ∧
        ∃ b, BooleanExpression.evaluateOpt (.Variable "a") row.assignment = some b ∧
          row.result = b :=
  ⟨by decide, C10_row_assignments_total (.Variable "a") (by decide)⟩

/-! ### Proof search (`proofSystem.ts`): C2, C5, C8, C9 -/

/-- One entry of the list built by `getAllPossibleTransformations`. -/
structure Transformation where
  newExpression : BooleanExpression
  rule : TransformationRule
  appliedToSubexpression : Option BooleanExpression

/-- The root-rule loop of `getAllPossibleTransformations`: try every rule at
the root, keep results within `maxLength`; a rule that throws during
`apply` is skipped (the source logs a warning). -/
def rootTransformations (e : BooleanExpression)
    (rules : List TransformationRule) (maxLength : Nat) : List Transformation :=
  rules.filterMap (fun rule =>
    if rule.canApply e then
      match rule.apply e with
      | Except.ok newExpression =>
          if newExpression.getLength ≤ maxLength then
            some { newExpression := newExpression, rule := rule,
                   appliedToSubexpression := some e }
          else none
      | Except.error _ => none
    else none)

/-- Lifting loop of `getSubexpressionTransformations`: wrap each inner
rewrite back into the surrounding context (`new Negation(...)` or
`createBinaryOperation(...)`, which preserves the constructor) and keep it
iff the rebuilt expression is within `maxLength`. -/
def liftTransformations (build : BooleanExpression → BooleanExpression)
    (maxLength : Nat) (ts : List Transformation) : List Transformation :=
  ts.filterMap (fun t =>
    let newExpression := build t.newExpression
    if newExpression.getLength ≤ maxLength then
      some { newExpression := newExpression, rule := t.rule,
             appliedToSubexpression := t.appliedToSubexpression }
    else none)

/-- `getAllPossibleTransformations` from `proofSystem.ts`: root rewrites
first, then rewrites of subexpressions, recursing into a negation child
with budget `maxLength - 1` and into each side of a binary operation with
budget `maxLength - (other side) - 1`, left side first (the rebuild uses
`createBinaryOperation`, which preserves the constructor). The
subexpression part is restated as `getSubexpressionTransformations`
below. -/
def getAllPossibleTransformations (e : BooleanExpression)
    (rules : List TransformationRule) (maxLength : Nat) : List Transformation :=
  rootTransformations e rules maxLength ++
    (match e with
     | .Negation c =>
         liftTransformations (fun x => .Negation x) maxLength
           (getAllPossibleTransformations c rules (maxLength - 1))
     | .Conjunction l r =>
         liftTransformations (fun x => .Conjunction x r) maxLength
           (getAllPossibleTransformations l rules (maxLength - r.getLength - 1)) ++
         liftTransformations (fun x => .Conjunction l x) maxLength
           (getAllPossibleTransformations r rules (maxLength - l.getLength - 1))
     | .Disjunction l r =>
         liftTransformations (fun x => .Disjunction x r) maxLength
           (getAllPossibleTransformations l rules (maxLength - r.getLength - 1)) ++
         liftTransformations (fun x => .Disjunction l x) maxLength
           (getAllPossibleTransformations r rules (maxLength - l.getLength - 1))
     | .Implication l r =>
         liftTransformations (fun x => .Implication x r) maxLength
           (getAllPossibleTransformations l rules (maxLength - r.getLength - 1)) ++
         liftTransformations (fun x => .Implication l x) maxLength
           (getAllPossibleTransformations r rules (maxLength - l.getLength - 1))
     | .Biconditional l r =>
         liftTransformations (fun x => .Biconditional x r) maxLength
           (getAllPossibleTransformations l rules (maxLength - r.getLength - 1)) ++
         liftTransformations (fun x => .Biconditional l x) maxLength
           (getAllPossibleTransformations r rules (maxLength - l.getLength - 1))
     | _ => [])

/-- `getSubexpressionTransformations` from `proofSystem.ts`, the
subexpression part of the enumeration. -/
def getSubexpressionTransformations (e : BooleanExpression)
    (rules : List TransformationRule) (maxLength : Nat) : List Transformation :=
  match e with
  | .Negation c =>
      liftTransformations (fun x => .Negation x) maxLength
        (getAllPossibleTransformations c rules (maxLength - 1))
  | .Conjunction l r =>
      liftTransformations (fun x => .Conjunction x r) maxLength
        (getAllPossibleTransformations l rules (maxLength - r.getLength - 1)) ++
      liftTransformations (fun x => .Conjunction l x) maxLength
        (getAllPossibleTransformations r rules (maxLength - l.getLength - 1))
  | .Disjunction l r =>
      liftTransformations (fun x => .Disjunction x r) maxLength
        (getAllPossibleTransformations l rules (maxLength - r.getLength - 1)) ++
      liftTransformations (fun x => .Disjunction l x) maxLength
        (getAllPossibleTransformations r rules (maxLength - l.getLength - 1))
  | .Implication l r =>
      liftTransformations (fun x => .Implication x r) maxLength
        (getAllPossibleTransformations l rules (maxLength - r.getLength - 1)) ++
      liftTransformations (fun x => .Implication l x) maxLength
        (getAllPossibleTransformations r rules (maxLength - l.getLength - 1))
  | .Biconditional l r =>
      liftTransformations (fun x => .Biconditional x r) maxLength
        (getAllPossibleTransformations l rules (maxLength - r.getLength - 1)) ++
      liftTransformations (fun x => .Biconditional l x) maxLength
        (getAllPossibleTransformations r rules (maxLength - l.getLength - 1))
  | _ => []

theorem getAllPossibleTransformations_eq (e : BooleanExpression)
    (rules : List TransformationRule) (maxLength : Nat) :
    getAllPossibleTransformations e rules maxLength =
      rootTransformations e rules maxLength ++
        getSubexpressionTransformations e rules maxLength := by
  cases e <;> rfl

/-- Internal `ProofNode` from `proofSystem.ts`: expression, back pointer,
producing rule, and BFS depth. -/
inductive ProofNode where
  | mk (expression : BooleanExpression) (parent : Option ProofNode)
       (rule : Option TransformationRule)
       (appliedToSubexpression : Option BooleanExpression) (depth : Nat)

def ProofNode.expression : ProofNode → BooleanExpression
  | .mk e _ _ _ _ => e

def ProofNode.parent : ProofNode → Option ProofNode
  | .mk _ p _ _ _ => p

def ProofNode.rule : ProofNode → Option TransformationRule
  | .mk _ _ r _ _ => r

def ProofNode.appliedToSubexpression : ProofNode → Option BooleanExpression
  | .mk _ _ _ a _ => a

def ProofNode.depth : ProofNode → Nat
  | .mk _ _ _ _ d => d

/-- `ProofStep` from `proofSystem.ts`. -/
structure ProofStep where
  expression : BooleanExpression
  rule : Option TransformationRule
  appliedToSubexpression : Option BooleanExpression
  stepNumber : Nat

/-- `TransformationProof` from `proofSystem.ts`: the structured result; its
only outcome discriminator is the boolean `found`. -/
structure TransformationProof where
  startExpression : BooleanExpression
  targetExpression : BooleanExpression
  steps : List ProofStep
  found : Bool
  searchDepth : Nat
  totalStatesExplored : Nat

/-- `ProofSearchOptions` from `proofSystem.ts` with its defaults. There is
no cancellation field; `onProgress` is an optional JS callback, and a JS
callback may throw, modelled by an `Except Unit Unit` result. -/
structure ProofSearchOptions where
  maxDepth : Nat := 15
  maxStates : Nat := 10000
  maxExpressionLength : Nat := 15
  rules : List TransformationRule := ALL_TRANSFORMATION_RULES
  onProgress : Option (Nat → Nat → Except Unit Unit) := none

/-- The node chain from the BFS start node to the given node, in order
(the `while (current) nodes.unshift(current)` loop of `reconstructProof`). -/
def collectNodes : ProofNode → List ProofNode
  | .mk e p r a d =>
      (match p with
       | none => []
       | some parent => collectNodes parent) ++ [.mk e p r a d]

/-- `reconstructProof` from `proofSystem.ts`: nodes from start to goal,
numbered from 1. -/
def reconstructProof (finalNode : ProofNode) : List ProofStep :=
  (collectNodes finalNode).enum.map (fun p =>
    { expression := p.2.expression, rule := p.2.rule,
      appliedToSubexpression := p.2.appliedToSubexpression,
      stepNumber := p.1 + 1 })

/-- The `for (const t of transformations)` body of the BFS: skip visited
hashes, mark new ones visited, stop at the first child equal to the
target, push the rest onto the queue. -/
def processChildren (targetExpression : BooleanExpression) (current : ProofNode) :
    List Transformation → List String → List ProofNode →
    List String × List ProofNode × Option ProofNode
  | [], visited, queue => (visited, queue, none)
  | t :: ts, visited, queue =>
      let hash := t.newExpression.getHash
      if visited.contains hash then
        processChildren targetExpression current ts visited queue
      else
        let visited' := hash :: visited
        let newNode := ProofNode.mk t.newExpression (some current) (some t.rule)
          t.appliedToSubexpression (current.depth + 1)
        if t.newExpression.equals targetExpression then
          (visited', queue, some newNode)
        else
          processChildren targetExpression current ts visited' (queue ++ [newNode])

/-- The `while (queue.length > 0)` loop of `findTransformationProof`,
with an explicit fuel argument (`none` = fuel ran out; the caller passes
`maxStates + 1`, which `C8` shows is always enough). Per iteration, in
source order: dequeue; count the state; fire `onProgress` every 100
states (a throwing callback aborts the whole search); stop when
`statesExplored >= maxStates`; skip expansion at `depth >= maxDepth`;
otherwise expand and process the children. -/
def bfsLoop (startExpression targetExpression : BooleanExpression)
    (options : ProofSearchOptions) :
    Nat → List ProofNode → List String → Nat → Nat →
    Option (Except Unit TransformationProof)
  | 0, _, _, _, _ => none
  | _ + 1, [], _, statesExplored, maxDepthReached =>
      some (Except.ok
        { startExpression := startExpression,
          targetExpression := targetExpression,
          steps := [], found := false, searchDepth := maxDepthReached,
          totalStatesExplored := statesExplored })
  | fuel + 1, current :: rest, visited, statesExplored, maxDepthReached =>
      let statesExplored' := statesExplored + 1
      let progress : Except Unit Unit :=
        match options.onProgress with
        | some cb =>
            if statesExplored' % 100 == 0 then cb statesExplored' current.depth
            else Except.ok ()
        | none => Except.ok ()
      match progress with
      | Except.error err => some (Except.error err)
      | Except.ok _ =>
          if statesExplored' ≥ options.maxStates then
            some (Except.ok
              { startExpression := startExpression,
                targetExpression := targetExpression,
                steps := [], found := false, searchDepth := maxDepthReached,
                totalStatesExplored := statesExplored' })
          else if current.depth ≥ options.maxDepth then
            bfsLoop startExpression targetExpression options
              fuel rest visited statesExplored' maxDepthReached
          else
            let maxDepthReached' := max maxDepthReached current.depth
            let ts := getAllPossibleTransformations current.expression
              options.rules options.maxExpressionLength
            match processChildren targetExpression current ts visited rest with
            | (_, _, some foundNode) =>
                some (Except.ok
                  { startExpression := startExpression,
                    targetExpression := targetExpression,
                    steps := reconstructProof foundNode, found := true,
                    searchDepth := foundNode.depth,
                    totalStatesExplored := statesExplored' })
            | (visited', queue', none) =>
                bfsLoop startExpression targetExpression options
                  fuel queue' visited' statesExplored' maxDepthReached'

/-- `findTransformationProof` from `proofSystem.ts`. Structurally equal
inputs short-circuit to a one-step proof; otherwise the BFS runs seeded
with the start expression and its hash. The result is `none` only on fuel
exhaustion, which cannot happen (C8). -/
def findTransformationProof (startExpression targetExpression : BooleanExpression)
    (options : ProofSearchOptions) : Option (Except Unit TransformationProof) :=
  if startExpression.equals targetExpression then
    some (Except.ok
      { startExpression := startExpression,
        targetExpression := targetExpression,
        steps := [{ expression := startExpression, rule := none,
                    appliedToSubexpression := none, stepNumber := 1 }],
        found := true, searchDepth := 0, totalStatesExplored := 1 })
  else
    bfsLoop startExpression targetExpression options
      (options.maxStates + 1)
      [ProofNode.mk startExpression none none none 0]
      [startExpression.getHash] 0 0

/-- Fuel sufficiency for the BFS loop: with fuel at least
`maxStates - statesExplored + 1` the loop always returns, and every
returned proof object reports at most `max maxStates 1` dequeued states. -/
theorem bfsLoop_total (S T : BooleanExpression) (options : ProofSearchOptions) :
    ∀ (fuel : Nat) (queue : List ProofNode) (visited : List String) (s mdr : Nat),
      options.maxStates - s + 1 ≤ fuel → (s = 0 ∨ s < options.maxStates) →
      ∃ r, bfsLoop S T options fuel queue visited s mdr = some r ∧
        ∀ p, r = Except.ok p → p.totalStatesExplored ≤ max options.maxStates 1 := by
  intro fuel
  induction fuel with
  | zero => intro queue visited s mdr hfuel hs; omega
  | succ fuel ih =>
      intro queue visited s mdr hfuel hs
      have hsle : s ≤ max options.maxStates 1 := by
        rcases hs with rfl | h
        · exact Nat.le_trans (Nat.zero_le 1) (Nat.le_max_right _ _)
        · exact Nat.le_trans (Nat.le_of_lt h) (Nat.le_max_left _ _)
      cases queue with
      | nil =>
          refine ⟨_, rfl, ?_⟩
          intro p hp
          obtain rfl : _ = p := Except.ok.inj hp
          exact hsle
      | cons current rest =>
          simp only [bfsLoop]
          split
          · refine ⟨_, rfl, ?_⟩
            intro p hp
            simp at hp
          · split
            · refine ⟨_, rfl, ?_⟩
              intro p hp
              obtain rfl : _ = p := Except.ok.inj hp
              show s + 1 ≤ max options.maxStates 1
              rcases hs with rfl | h
              · exact Nat.le_max_right _ _
              · exact Nat.le_trans (Nat.succ_le_of_lt h) (Nat.le_max_left _ _)
            · next hbreak =>
              have hlt : s + 1 < options.maxStates := Nat.lt_of_not_le hbreak
              split
              · exact ih rest visited (s + 1) mdr (by omega) (Or.inr hlt)
              · split
                · refine ⟨_, rfl, ?_⟩
                  intro p hp
                  obtain rfl : _ = p := Except.ok.inj hp
                  show s + 1 ≤ max options.maxStates 1
                  exact Nat.le_trans (Nat.le_of_lt hlt) (Nat.le_max_left _ _)
                · exact ih _ _ (s + 1) _ (by omega) (Or.inr hlt)

/-- C8 counterexample: with `maxStates := 0` and distinct variables the
search still dequeues one node, so "at most `maxStates` nodes" fails. -/
theorem C8_counterexample :
    ∃ p, findTransformationProof (.Variable "a") (.Variable "b")
        { maxStates := 0 } = some (Except.ok p) ∧
      p.totalStatesExplored = 1 ∧ ¬ p.totalStatesExplored ≤ 0 := by
  refine ⟨{ startExpression := .Variable "a", targetExpression := .Variable "b",
            steps := [], found := false, searchDepth := 0,
            totalStatesExplored := 1 }, rfl, rfl, by decide⟩

/-- C8 amended: for every pair of expressions and every option set the
search terminates with a result (the fuel `maxStates + 1` always
suffices), dequeuing at most `max maxStates 1` nodes. -/
theorem C8_amended_termination :
    ∀ (S T : BooleanExpression) (options : ProofSearchOptions),
      ∃ r, findTransformationProof S T options = some r ∧
        ∀ p, r = Except.ok p → p.totalStatesExplored ≤ max options.maxStates 1 := by
  intro S T options
  unfold findTransformationProof
  split
  · refine ⟨_, rfl, ?_⟩
    intro p hp
    obtain rfl : _ = p := Except.ok.inj hp
    show 1 ≤ max options.maxStates 1
    exact Nat.le_max_right _ _
  · exact bfsLoop_total S T options (options.maxStates + 1) _ _ 0 0
      (by omega) (Or.inl rfl)

/-- Witness for the amended C8 on a concrete degenerate search. -/
theorem C8_amended_termination_witness :
    ∃ p, findTransformationProof (.Variable "a") (.Variable "b")
        { maxStates := 0 } = some (Except.ok p) ∧
      p.totalStatesExplored ≤ max (0 : Nat) 1 := by
  obtain ⟨r, hr, hb⟩ :=
    C8_amended_termination (.Variable "a") (.Variable "b") { maxStates := 0 }
  have hcomp : findTransformationProof (.Variable "a") (.Variable "b")
      { maxStates := 0 } =
      some (Except.ok
        { startExpression := .Variable "a", targetExpression := .Variable "b",
          steps := [], found := false, searchDepth := 0,
          totalStatesExplored := 1 }) := rfl
  rw [hcomp] at hr
  obtain rfl := Option.some.inj hr
  exact ⟨_, hcomp, hb _ rfl⟩

/-! ### Cancellation behaviour of the search (C5).

`ProofSearchOptions` has no cancellation field; the only hook is
`onProgress`, fired at every 100th dequeue, and the UI cancels by throwing
from it (`ProofView.tsx`). The scenario below drives the search through
100 expansions with a host-supplied rule that keeps renaming a variable,
so the state space is an infinite chain. -/

/-- Variable names `a`, `ax`, `axx`, … of the chain scenario. -/
def chainName : Nat → String
  | 0 => "a"
  | k + 1 => chainName k ++ "x"

/-- The chain-scenario expressions. -/
def chainExpr (k : Nat) : BooleanExpression := .Variable (chainName k)

/-- A host-supplied rule (passed through `options.rules`) that rewrites a
variable to a fresh longer one. -/
def chainRule : TransformationRule where
  name := "chain"
  category := "test"
  description := "appends x to a variable name"
  canApply _ := true
  apply
    | .Variable n => Except.ok (.Variable (n ++ "x"))
    | _ => Except.error "not a variable"

/-- The BFS node reached after `k` chain rewrites. -/
def chainNode : Nat → ProofNode
  | 0 => .mk (chainExpr 0) none none none 0
  | k + 1 => .mk (chainExpr (k + 1)) (some (chainNode k)) (some chainRule)
      (some (chainExpr k)) (k + 1)

/-- The visited set after `k` chain iterations. -/
def chainVisited : Nat → List String
  | 0 => [(chainExpr 0).getHash]
  | k + 1 => (chainExpr (k + 1)).getHash :: chainVisited k

theorem chainName_length : ∀ k, (chainName k).length = k + 1 := by
  intro k
  induction k with
  | zero => rfl
  | succ k ih =>
      show (chainName k ++ "x").length = k + 2
      rw [String.length_append, ih]
      have hx : ("x").length = 1 := rfl
      omega

theorem chainName_beq_b : ∀ k, (chainName k == "b") = false := by
  intro k
  cases k with
  | zero => rfl
  | succ k =>
      refine beq_eq_false_iff_ne.2 (fun h => ?_)
      have hlen := congrArg String.length h
      rw [chainName_length] at hlen
      have hb : ("b").length = 1 := rfl
      omega

theorem chainExpr_getHash_length :
    ∀ k, ((chainExpr k).getHash).length = k + 6 := by
  intro k
  show ("VAR(" ++ chainName k ++ ")").length = k + 6
  rw [String.length_append, String.length_append, chainName_length]
  have h1 : ("VAR(").length = 4 := rfl
  have h2 : (")").length = 1 := rfl
  omega

theorem chainHash_beq : ∀ j k, j ≠ k →
    (((chainExpr j).getHash) == ((chainExpr k).getHash)) = false := by
  intro j k hjk
  refine beq_eq_false_iff_ne.2 (fun h => ?_)
  have := congrArg String.length h
  rw [chainExpr_getHash_length, chainExpr_getHash_length] at this
  omega

theorem chainVisited_contains : ∀ k m, k < m →
    ((chainVisited k).contains ((chainExpr m).getHash)) = false := by
  intro k
  induction k with
  | zero =>
      intro m hm
      simp only [chainVisited, List.contains, List.elem,
        chainHash_beq m 0 (by omega)]
  | succ k ih =>
      intro m hm
      simp only [chainVisited, List.contains, List.elem,
        chainHash_beq m (k + 1) (by omega)]
      exact ih m (by omega)

theorem chainNode_depth : ∀ n, (chainNode n).depth = n := by
  intro n; cases n <;> rfl

theorem chainNode_expression : ∀ n, (chainNode n).expression = chainExpr n := by
  intro n; cases n <;> rfl

theorem chainExpr_equals_b : ∀ k, (chainExpr k).equals (.Variable "b") = false := by
  intro k
  show (chainName k == "b") = false
  exact chainName_beq_b k

/-- The chain expansion: the rename rule produces exactly the next chain
expression. -/
theorem chain_getAll (n L : Nat) (hL : 1 ≤ L) :
    getAllPossibleTransformations (chainExpr n) [chainRule] L =
      [{ newExpression := chainExpr (n + 1), rule := chainRule,
         appliedToSubexpression := some (chainExpr n) }] := by
  show rootTransformations (chainExpr n) [chainRule] L ++ [] = _
  simp only [rootTransformations, List.filterMap, chainRule, chainExpr]
  rw [if_pos (show BooleanExpression.getLength
      (.Variable (chainName n ++ "x")) ≤ L from hL)]
  simp [chainName]

/-- One non-boundary, non-final BFS iteration of the chain scenario. -/
theorem chain_step (opts : ProofSearchOptions) (hrules : opts.rules = [chainRule])
    (hlen : 1 ≤ opts.maxExpressionLength) (n mdr f : Nat)
    (hdepth : n < opts.maxDepth) (hbreak : n + 1 < opts.maxStates)
    (hprog : ∀ cb, opts.onProgress = some cb → (((n + 1) % 100) == 0) = false) :
    bfsLoop (chainExpr 0) (.Variable "b") opts (f + 1)
        [chainNode n] (chainVisited n) n mdr =
      bfsLoop (chainExpr 0) (.Variable "b") opts f
        [chainNode (n + 1)] (chainVisited (n + 1)) (n + 1) (max mdr n) := by
  have hpc : processChildren (.Variable "b") (chainNode n)
      [{ newExpression := chainExpr (n + 1), rule := chainRule,
         appliedToSubexpression := some (chainExpr n) }] (chainVisited n) [] =
      (chainVisited (n + 1), [chainNode (n + 1)], none) := by
    simp only [processChildren, chainVisited_contains n (n + 1) (by omega),
      Bool.false_eq_true, if_false, chainExpr_equals_b, chainNode_depth]
    rfl
  cases hcb : opts.onProgress with
  | none =>
      simp only [bfsLoop, hcb]
      rw [if_neg (show ¬ n + 1 ≥ opts.maxStates by omega),
        if_neg (show ¬ (chainNode n).depth ≥ opts.maxDepth by
          rw [chainNode_depth]; omega)]
      rw [chainNode_expression, hrules, chain_getAll n _ hlen, hpc,
        chainNode_depth]
  | some cb =>
      simp only [bfsLoop, hcb, hprog cb hcb, Bool.false_eq_true, if_false]
      rw [if_neg (show ¬ n + 1 ≥ opts.maxStates by omega),
        if_neg (show ¬ (chainNode n).depth ≥ opts.maxDepth by
          rw [chainNode_depth]; omega)]
      rw [chainNode_expression, hrules, chain_getAll n _ hlen, hpc,
        chainNode_depth]

/-- A dequeue at a 100-expansion boundary with a throwing callback aborts
the whole search with the exception. -/
theorem bfsLoop_cb_throw (S T : BooleanExpression) (opts : ProofSearchOptions)
    (f : Nat) (current : ProofNode) (rest : List ProofNode)
    (visited : List String) (s mdr : Nat) (cb : Nat → Nat → Except Unit Unit)
    (hcb : opts.onProgress = some cb) (hb : (((s + 1) % 100) == 0) = true)
    (ht : cb (s + 1) current.depth = Except.error ()) :
    bfsLoop S T opts (f + 1) (current :: rest) visited s mdr =
      some (Except.error ()) := by
  simp only [bfsLoop, hcb, hb, if_true, ht]

/-- A dequeue that hits the `maxStates` budget returns the not-found
result with the statistics so far. -/
theorem bfsLoop_break_step (S T : BooleanExpression) (opts : ProofSearchOptions)
    (f : Nat) (current : ProofNode) (rest : List ProofNode)
    (visited : List String) (s mdr : Nat)
    (hprog : ∀ cb, opts.onProgress = some cb → (((s + 1) % 100) == 0) = false)
    (hb : s + 1 ≥ opts.maxStates) :
    bfsLoop S T opts (f + 1) (current :: rest) visited s mdr =
      some (Except.ok
        { startExpression := S, targetExpression := T, steps := [],
          found := false, searchDepth := mdr,
          totalStatesExplored := s + 1 }) := by
  cases hcb : opts.onProgress with
  | none =>
      simp only [bfsLoop, hcb]
      rw [if_pos hb]
  | some cb =>
      simp only [bfsLoop, hcb, hprog cb hcb, Bool.false_eq_true, if_false]
      rw [if_pos hb]

/-- Options used by the UI-style cancellation scenario: the progress
callback always throws (as `ProofView.tsx` does after `abort`). -/
def throwingOptions : ProofSearchOptions :=
  { maxDepth := 1000, rules := [chainRule],
    onProgress := some (fun _ _ => Except.error ()) }

/-- The same search without any callback and a 102-state budget. -/
def noCbOptions : ProofSearchOptions :=
  { maxDepth := 1000, maxStates := 102, rules := [chainRule] }

/-- With the throwing callback, the chain search aborts exceptionally at
the 100th dequeue. -/
theorem chain_run_cb : ∀ (f n mdr : Nat), n ≤ 99 → 100 - n ≤ f →
    bfsLoop (chainExpr 0) (.Variable "b") throwingOptions f
      [chainNode n] (chainVisited n) n mdr = some (Except.error ()) := by
  intro f
  induction f with
  | zero => intro n mdr hn hf; omega
  | succ f ih =>
      intro n mdr hn hf
      by_cases h99 : n = 99
      · subst h99
        exact bfsLoop_cb_throw _ _ _ f _ _ _ _ _ _ rfl (by decide) rfl
      · rw [chain_step throwingOptions rfl
          (by show (1 : Nat) ≤ 15; omega) n mdr f
          (by show n < 1000; omega) (by show n + 1 < 10000; omega)
          (fun cb hcb => by
            rw [Nat.mod_eq_of_lt (by omega : n + 1 < 100)]
            exact beq_eq_false_iff_ne.2 (by omega))]
        exact ih (n + 1) (max mdr n) (by omega) (by omega)

/-- Without a callback the same chain search runs to its `maxStates`
budget and returns a structured not-found result. -/
theorem chain_run_nocb : ∀ (f n mdr : Nat), n ≤ 101 → 102 - n ≤ f →
    ∃ p, bfsLoop (chainExpr 0) (.Variable "b") noCbOptions f
        [chainNode n] (chainVisited n) n mdr = some (Except.ok p) ∧
      p.found = false ∧ p.totalStatesExplored = 102 := by
  intro f
  induction f with
  | zero => intro n mdr hn hf; omega
  | succ f ih =>
      intro n mdr hn hf
      by_cases h101 : n = 101
      · subst h101
        refine ⟨_, bfsLoop_break_step _ _ _ f _ _ _ _ _
          (fun cb hcb => by cases hcb) (by show 102 ≥ 102; omega), rfl, rfl⟩
      · rw [chain_step noCbOptions rfl
          (by show (1 : Nat) ≤ 15; omega) n mdr f
          (by show n < 1000; omega) (by show n + 1 < 102; omega)
          (fun cb hcb => by cases hcb)]
        exact ih (n + 1) (max mdr n) (by omega) (by omega)

/-- The throwing-callback search, from the public entry point. -/
theorem chain_find_throwing :
    findTransformationProof (chainExpr 0) (.Variable "b") throwingOptions =
      some (Except.error ()) := by
  unfold findTransformationProof
  rw [chainExpr_equals_b 0, if_neg (by decide)]
  exact chain_run_cb (throwingOptions.maxStates + 1) 0 0 (by omega)
    (by show 100 - 0 ≤ 10001; omega)

/-- C5 counterexample: the search has no cancellation-signal parameter;
the only cancellation mechanism a host has is throwing from `onProgress`
(checked at each 100-expansion boundary), and doing so makes the search
abort with the exception: no `found=false` result and no statistics are
returned, contradicting the claimed early return with a structured
result. -/
theorem C5_counterexample :
    findTransformationProof (chainExpr 0) (.Variable "b") throwingOptions =
      some (Except.error ()) ∧
    ∀ p : TransformationProof,
      findTransformationProof (chainExpr 0) (.Variable "b") throwingOptions ≠
        some (Except.ok p) := by
  refine ⟨chain_find_throwing, fun p hp => ?_⟩
  rw [chain_find_throwing] at hp
  simp at hp

/-- C5 amended: `findTransformationProof` exposes only the optional
`onProgress` callback, invoked at each 100-expansion boundary. A host that
cancels by throwing from the callback aborts the search exceptionally,
with no `TransformationProof` (no `found=false`, no statistics); an
uncancelled search always returns a structured result whose only outcome
discriminator is the boolean `found`. -/
theorem C5_amended_cancellation_behaviour :
    (findTransformationProof (chainExpr 0) (.Variable "b") throwingOptions =
      some (Except.error ())) ∧
    (∃ p, findTransformationProof (chainExpr 0) (.Variable "b") noCbOptions =
      some (Except.ok p) ∧ p.found = false ∧ p.totalStatesExplored = 102) := by
  refine ⟨chain_find_throwing, ?_⟩
  have h : findTransformationProof (chainExpr 0) (.Variable "b") noCbOptions =
      bfsLoop (chainExpr 0) (.Variable "b") noCbOptions
        (noCbOptions.maxStates + 1) [chainNode 0] (chainVisited 0) 0 0 := by
    unfold findTransformationProof
    rw [chainExpr_equals_b 0, if_neg (by decide)]
    rfl
  rw [h]
  exact chain_run_nocb (noCbOptions.maxStates + 1) 0 0 (by omega)
    (by show 102 - 0 ≤ 103; omega)
/-- Every transformation produced by the root-rule loop of
`getAllPossibleTransformations` respects the length budget. -/
theorem mem_rootTransformations_length {e : BooleanExpression}
    {rules : List TransformationRule} {maxLength : Nat} {t : Transformation}
    (h : t ∈ rootTransformations e rules maxLength) :
    t.newExpression.getLength ≤ maxLength := by
  simp only [rootTransformations, List.mem_filterMap] at h
  obtain ⟨rule, -, hf⟩ := h
  split at hf
  · split at hf
    · split at hf
      · rename_i hle
        obtain rfl := Option.some.inj hf
        exact hle
      · simp at hf
    · simp at hf
  · simp at hf

/-- Every transformation surviving the lifting loop of
`getSubexpressionTransformations` respects the length budget. -/
theorem mem_liftTransformations_length
    {build : BooleanExpression → BooleanExpression} {maxLength : Nat}
    {ts : List Transformation} {t : Transformation}
    (h : t ∈ liftTransformations build maxLength ts) :
    t.newExpression.getLength ≤ maxLength := by
  simp only [liftTransformations, List.mem_filterMap] at h
  obtain ⟨u, -, hf⟩ := h
  split at hf
  · rename_i hle
    obtain rfl := Option.some.inj hf
    exact hle
  · simp at hf

/-- Every candidate `getAllPossibleTransformations` emits is within the
`maxLength` budget: the length filter runs on every root rewrite and on
every rebuilt expression before anything else sees it. -/
theorem mem_getAllPossibleTransformations_length
    (e : BooleanExpression) (rules : List TransformationRule) (maxLength : Nat) :
    ∀ t ∈ getAllPossibleTransformations e rules maxLength,
      t.newExpression.getLength ≤ maxLength := by
  intro t ht
  rw [getAllPossibleTransformations_eq] at ht
  rcases List.mem_append.1 ht with h | h
  · exact mem_rootTransformations_length h
  · cases e with
    | Variable n => simp [getSubexpressionTransformations] at h
    | TrueConstant => simp [getSubexpressionTransformations] at h
    | FalseConstant => simp [getSubexpressionTransformations] at h
    | Negation c =>
        simp only [getSubexpressionTransformations] at h
        exact mem_liftTransformations_length h
    | Conjunction l r =>
        simp only [getSubexpressionTransformations] at h
        rcases List.mem_append.1 h with h | h <;>
          exact mem_liftTransformations_length h
    | Disjunction l r =>
        simp only [getSubexpressionTransformations] at h
        rcases List.mem_append.1 h with h | h <;>
          exact mem_liftTransformations_length h
    | Implication l r =>
        simp only [getSubexpressionTransformations] at h
        rcases List.mem_append.1 h with h | h <;>
          exact mem_liftTransformations_length h
    | Biconditional l r =>
        simp only [getSubexpressionTransformations] at h
        rcases List.mem_append.1 h with h | h <;>
          exact mem_liftTransformations_length h

/-- If the child-processing loop reports a found node, that node carries
the expression of one of the candidate transformations, and that
expression equals the target. -/
theorem processChildren_found (T : BooleanExpression) (current : ProofNode) :
    ∀ (ts : List Transformation) (visited : List String) (queue : List ProofNode)
      (v : List String) (q : List ProofNode) (node : ProofNode),
      processChildren T current ts visited queue = (v, q, some node) →
      ∃ t ∈ ts, node.expression = t.newExpression ∧
        t.newExpression.equals T = true := by
  intro ts
  induction ts with
  | nil =>
      intro visited queue v q node h
      simp [processChildren] at h
  | cons t ts ih =>
      intro visited queue v q node h
      simp only [processChildren] at h
      split at h
      · obtain ⟨u, hu, hx⟩ := ih _ _ _ _ _ h
        exact ⟨u, List.mem_cons_of_mem _ hu, hx⟩
      · split at h
        · rename_i heq
          injection h with h1 h23
          injection h23 with h2 h3
          obtain rfl := Option.some.inj h3
          exact ⟨t, List.mem_cons_self t ts, rfl, heq⟩
        · obtain ⟨u, hu, hx⟩ := ih _ _ _ _ _ h
          exact ⟨u, List.mem_cons_of_mem _ hu, hx⟩

/-- The per-dequeue progress computation of the BFS loop, named so that
`bfsLoop` iterations can be analysed case by case. -/
def progressCheck (options : ProofSearchOptions) (statesExplored depth : Nat) :
    Except Unit Unit :=
  match options.onProgress with
  | some cb =>
      if statesExplored % 100 == 0 then cb statesExplored depth
      else Except.ok ()
  | none => Except.ok ()

/-- One non-empty-queue iteration of `bfsLoop`, written out with the
progress computation factored through `progressCheck`. -/
theorem bfsLoop_cons_eq (S T : BooleanExpression) (options : ProofSearchOptions)
    (fuel : Nat) (current : ProofNode) (rest : List ProofNode)
    (visited : List String) (s mdr : Nat) :
    bfsLoop S T options (fuel + 1) (current :: rest) visited s mdr =
      match progressCheck options (s + 1) current.depth with
      | Except.error err => some (Except.error err)
      | Except.ok _ =>
          if s + 1 ≥ options.maxStates then
            some (Except.ok
              { startExpression := S, targetExpression := T, steps := [],
                found := false, searchDepth := mdr,
                totalStatesExplored := s + 1 })
          else if current.depth ≥ options.maxDepth then
            bfsLoop S T options fuel rest visited (s + 1) mdr
          else
            match processChildren T current
                (getAllPossibleTransformations current.expression options.rules
                  options.maxExpressionLength) visited rest with
            | (_, _, some foundNode) =>
                some (Except.ok
                  { startExpression := S, targetExpression := T,
                    steps := reconstructProof foundNode, found := true,
                    searchDepth := foundNode.depth,
                    totalStatesExplored := s + 1 })
            | (visited2, queue2, none) =>
                bfsLoop S T options fuel queue2 visited2 (s + 1)
                  (max mdr current.depth) := rfl

/-- If the BFS loop returns a proof object with `found = true`, some
expression structurally equal to the target passed the
`maxExpressionLength` filter. -/
theorem bfsLoop_found_length (S T : BooleanExpression)
    (options : ProofSearchOptions) :
    ∀ (fuel : Nat) (queue : List ProofNode) (visited : List String) (s mdr : Nat)
      (p : TransformationProof),
      bfsLoop S T options fuel queue visited s mdr = some (Except.ok p) →
      p.found = true →
      ∃ e2 : BooleanExpression,
        e2.equals T = true ∧ e2.getLength ≤ options.maxExpressionLength := by
  intro fuel
  induction fuel with
  | zero =>
      intro queue visited s mdr p h hf
      simp [bfsLoop] at h
  | succ fuel ih =>
      intro queue visited s mdr p h hf
      cases queue with
      | nil =>
          simp only [bfsLoop] at h
          obtain rfl := Except.ok.inj (Option.some.inj h)
          simp at hf
      | cons current rest =>
          rw [bfsLoop_cons_eq] at h
          cases hpr : progressCheck options (s + 1) current.depth with
          | error err =>
              rw [hpr] at h
              exact absurd h (by simp)
          | ok u =>
              rw [hpr] at h
              replace h : (if s + 1 ≥ options.maxStates then
                    some (Except.ok
                      { startExpression := S, targetExpression := T, steps := [],
                        found := false, searchDepth := mdr,
                        totalStatesExplored := s + 1 })
                  else if current.depth ≥ options.maxDepth then
                    bfsLoop S T options fuel rest visited (s + 1) mdr
                  else
                    match processChildren T current
                        (getAllPossibleTransformations current.expression
                          options.rules options.maxExpressionLength)
                        visited rest with
                    | (_, _, some foundNode) =>
                        some (Except.ok
                          { startExpression := S, targetExpression := T,
                            steps := reconstructProof foundNode, found := true,
                            searchDepth := foundNode.depth,
                            totalStatesExplored := s + 1 })
                    | (visited2, queue2, none) =>
                        bfsLoop S T options fuel queue2 visited2 (s + 1)
                          (max mdr current.depth)) = some (Except.ok p) := h
              split at h
              · obtain rfl := Except.ok.inj (Option.some.inj h)
                simp at hf
              · split at h
                · exact ih _ _ _ _ _ h hf
                · rcases hpc : processChildren T current
                      (getAllPossibleTransformations current.expression
                        options.rules options.maxExpressionLength)
                      visited rest with ⟨v2, q2, onode⟩
                  rw [hpc] at h
                  cases onode with
                  | some foundNode =>
                      replace h : (some (Except.ok
                          { startExpression := S, targetExpression := T,
                            steps := reconstructProof foundNode, found := true,
                            searchDepth := foundNode.depth,
                            totalStatesExplored := s + 1 }) :
                          Option (Except Unit TransformationProof)) =
                          some (Except.ok p) := h
                      obtain rfl := Except.ok.inj (Option.some.inj h)
                      obtain ⟨t, ht, -, hteq⟩ :=
                        processChildren_found T current _ _ _ _ _ _ hpc
                      exact ⟨t.newExpression, hteq,
                        mem_getAllPossibleTransformations_length _ _ _ _ ht⟩
                  | none =>
                      replace h : bfsLoop S T options fuel q2 v2 (s + 1)
                          (max mdr current.depth) = some (Except.ok p) := h
                      exact ih _ _ _ _ _ h hf

/-- C9: every candidate expression the search compares against the target
has size at most `maxExpressionLength`, because `getAllPossibleTransformations`
filters on length before `processChildren` runs the target-equality test;
consequently, for `S` not structurally equal to `T` and
`T.getLength > maxExpressionLength`, `findTransformationProof` can only
return a proof object with `found = false`, regardless of `maxDepth` and
`maxStates`. -/
theorem C9_length_gate :
    (∀ (e : BooleanExpression) (rules : List TransformationRule) (maxLength : Nat),
      ∀ t ∈ getAllPossibleTransformations e rules maxLength,
        t.newExpression.getLength ≤ maxLength) ∧
    (∀ (S T : BooleanExpression) (options : ProofSearchOptions),
      S.equals T = false → options.maxExpressionLength < T.getLength →
      ∀ p, findTransformationProof S T options = some (Except.ok p) →
        p.found = false) := by
  constructor
  · exact fun e rules maxLength t ht =>
      mem_getAllPossibleTransformations_length e rules maxLength t ht
  · intro S T options hne hlen p hp
    rcases Bool.eq_false_or_eq_true p.found with hb | hb
    · exfalso
      simp only [findTransformationProof, hne, Bool.false_eq_true,
        if_false] at hp
      obtain ⟨e2, heq, hle⟩ := bfsLoop_found_length S T options _ _ _ _ _ p hp hb
      obtain rfl := (equals_iff_eq e2 T).1 heq
      omega
    · exact hb

/-- C9 witness: a concrete in-budget candidate produced for `a & a`, and a
concrete search where the target `b & c` exceeds `maxExpressionLength = 2`
and the returned proof object has `found = false`. -/
theorem C9_length_gate_witness :
    (∃ t, t ∈ getAllPossibleTransformations
        (.Conjunction (.Variable "a") (.Variable "a")) [CommutativityAND] 3 ∧
      t.newExpression.getLength ≤ 3) ∧
    BooleanExpression.equals (.Variable "a")
      (.Conjunction (.Variable "b") (.Variable "c")) = false ∧
    ({ maxExpressionLength := 2, maxStates := 1, rules := [] } :
        ProofSearchOptions).maxExpressionLength <
      (BooleanExpression.Conjunction (.Variable "b") (.Variable "c")).getLength ∧
    ∃ p, findTransformationProof (.Variable "a")
        (.Conjunction (.Variable "b") (.Variable "c"))
        { maxExpressionLength := 2, maxStates := 1, rules := [] } =
      some (Except.ok p) ∧ p.found = false := by
  have hl : getAllPossibleTransformations
      (.Conjunction (.Variable "a") (.Variable "a")) [CommutativityAND] 3 =
      [{ newExpression := .Conjunction (.Variable "a") (.Variable "a"),
         rule := CommutativityAND,
         appliedToSubexpression :=
           some (.Conjunction (.Variable "a") (.Variable "a")) }] := rfl
  have hmem : ({ newExpression := .Conjunction (.Variable "a") (.Variable "a"),
                 rule := CommutativityAND,
                 appliedToSubexpression :=
                   some (.Conjunction (.Variable "a") (.Variable "a")) } :
        Transformation) ∈
      getAllPossibleTransformations
        (.Conjunction (.Variable "a") (.Variable "a")) [CommutativityAND] 3 := by
    rw [hl]
    exact List.mem_cons_self _ _
  refine ⟨⟨_, hmem, C9_length_gate.1 _ [CommutativityAND] 3 _ hmem⟩,
    rfl, by decide, ?_⟩
  refine ⟨_, rfl, ?_⟩
  exact C9_length_gate.2 (.Variable "a")
    (.Conjunction (.Variable "b") (.Variable "c"))
    { maxExpressionLength := 2, maxStates := 1, rules := [] }
    rfl (by decide) _ rfl

/-- `validateParentheses` from `parser.ts`, as a depth-tracking scan (the
source decrements then checks for a negative depth, which is the same as
checking for depth zero before decrementing). -/
def validateParenthesesGo : List String → Nat → Except String Unit
  | [], depth =>
      if depth ≠ 0 then
        Except.error "Unbalanced parentheses: missing closing parenthesis"
      else Except.ok ()
  | t :: ts, depth =>
      if t == "(" then validateParenthesesGo ts (depth + 1)
      else if t == ")" then
        if depth = 0 then
          Except.error
            "Unbalanced parentheses: closing parenthesis without matching opening"
        else validateParenthesesGo ts (depth - 1)
      else validateParenthesesGo ts depth

def validateParentheses (tokens : List String) : Except String Unit :=
  validateParenthesesGo tokens 0

/-- The scan of `isFullyParenthesized` over all tokens but the last: depth
is updated per token and the function fails as soon as depth returns to
zero (the depth cannot go negative before hitting zero, so `Nat` is
faithful). -/
def isFullyParenthesizedLoop : List String → Nat → Bool
  | [], _ => true
  | t :: ts, depth =>
      let d2 := if t == "(" then depth + 1 else if t == ")" then depth - 1 else depth
      if d2 = 0 then false else isFullyParenthesizedLoop ts d2

/-- `isFullyParenthesized` from `parser.ts`. -/
def isFullyParenthesized (tokens : List String) : Bool :=
  if tokens.length < 3 then false
  else if tokens.headD "" != "(" || tokens.getLastD "" != ")" then false
  else isFullyParenthesizedLoop tokens.dropLast 0

/-- The copying loop in `addNegationParentheses` for `! (`: emit tokens
until the matching close brings the depth back to zero (the copied part
includes that close); returns the copied tokens and the rest. Running out
of tokens ends the loop without an error, as in the source. -/
def copyDepth : List String → Nat → (List String × List String)
  | [], _ => ([], [])
  | ts, 0 => ([], ts)
  | t :: ts, depth + 1 =>
      let d2 := if t == "(" then depth + 2 else if t == ")" then depth else depth + 1
      let r := copyDepth ts d2
      (t :: r.1, r.2)

/-- The consecutive-negation counting loop of `addNegationParentheses`. -/
def countNegations : List String → (Nat × List String)
  | "!" :: ts => let r := countNegations ts; (r.1 + 1, r.2)
  | ts => (0, ts)

/-- `addNegationParentheses` from `parser.ts`. The `while` over the token
index is driven by a fuel argument (`tokens.length + 1` always suffices:
every step consumes at least one token); the caller passes enough. -/
def addNegationParenthesesGo : Nat → List String → Except String (List String)
  | 0, _ => Except.error "out of fuel"
  | fuel + 1, tokens =>
      match tokens with
      | [] => Except.ok []
      | t :: ts =>
          if t == "!" then
            match ts with
            | [] => Except.error "Missing operand after negation"
            | u :: us =>
                if u == "(" then
                  let r := copyDepth us 1
                  match addNegationParenthesesGo fuel r.2 with
                  | Except.ok tail =>
                      Except.ok ("(" :: "!" :: "(" :: r.1 ++ ")" :: tail)
                  | Except.error e => Except.error e
                else if u == "!" then
                  let r := countNegations ts
                  match r.2 with
                  | [] => Except.error "Missing operand after negation"
                  | operand :: rest2 =>
                      match addNegationParenthesesGo fuel rest2 with
                      | Except.ok tail =>
                          Except.ok ("(" :: "!" ::
                            (List.join (List.replicate r.1 ["(", "!"]) ++
                              operand :: List.replicate r.1 ")" ++ ")" :: tail))
                      | Except.error e => Except.error e
                else
                  match addNegationParenthesesGo fuel us with
                  | Except.ok tail => Except.ok ("(" :: "!" :: u :: ")" :: tail)
                  | Except.error e => Except.error e
          else
            match addNegationParenthesesGo fuel ts with
            | Except.ok tail => Except.ok (t :: tail)
            | Except.error e => Except.error e

def addNegationParentheses (tokens : List String) : Except String (List String) :=
  addNegationParenthesesGo (tokens.length + 1) tokens

/-- `isOperatorInParentheses` from `parser.ts`: the depth of the prefix
before the operator index is positive (the running depth is a JS number,
so it is tracked as an `Int`). -/
def isOperatorInParentheses (tokens : List String) (operatorIndex : Nat) : Bool :=
  decide (0 < (tokens.take operatorIndex).foldl
    (fun (d : Int) t => if t == "(" then d + 1 else if t == ")" then d - 1 else d) 0)

/-- JS `Array.prototype.indexOf(x, start)`: the first index at or after
`start` holding `x`, if any. -/
def indexOfFrom (l : List String) (x : String) (start : Nat) : Option Nat :=
  ((List.range l.length).filter
    (fun i => decide (start ≤ i) && l.getD i "" == x)).head?

/-- JS `Array.prototype.splice(pos, 0, x)`: insert `x` at position `pos`
(appending when `pos` is past the end). -/
def insertAt (l : List String) (pos : Nat) (x : String) : List String :=
  l.take pos ++ [x] ++ l.drop pos

/-- The downward scan of `findLeftOperandStart` with its JS index tracked
as an `Int` (it can end at `-1`); fuel-driven, `tokens.length + 2`
suffices. Returns the final index and depth. -/
def findLeftLoop (tokens : List String) : Nat → Int → Nat → (Int × Nat)
  | 0, i, depth => (i, depth)
  | fuel + 1, i, depth =>
      if 0 ≤ i ∧ 0 < depth then
        let t := tokens.getD i.toNat ""
        let d2 := if t == ")" then depth + 1 else if t == "(" then depth - 1 else depth
        findLeftLoop tokens fuel (i - 1) d2
      else (i, depth)

/-- `findLeftOperandStart` from `parser.ts`. -/
def findLeftOperandStart (tokens : List String) (operatorIndex : Nat) :
    Except String Nat :=
  if tokens.getD (operatorIndex - 1) "" == ")" then
    let r := findLeftLoop tokens (tokens.length + 2) ((operatorIndex : Int) - 2) 1
    if r.2 ≠ 0 then Except.error "Unbalanced parentheses in left operand"
    else Except.ok (r.1 + 1).toNat
  else Except.ok (operatorIndex - 1)

/-- The upward scan of `findRightOperandEnd`; fuel-driven,
`tokens.length + 2` suffices. Returns the final index and depth. -/
def findRightLoop (tokens : List String) : Nat → Nat → Nat → (Nat × Nat)
  | 0, i, depth => (i, depth)
  | fuel + 1, i, depth =>
      if i < tokens.length ∧ 0 < depth then
        let t := tokens.getD i ""
        let d2 := if t == "(" then depth + 1 else if t == ")" then depth - 1 else depth
        findRightLoop tokens fuel (i + 1) d2
      else (i, depth)

/-- `findRightOperandEnd` from `parser.ts`. -/
def findRightOperandEnd (tokens : List String) (operatorIndex : Nat) :
    Except String Nat :=
  if tokens.getD (operatorIndex + 1) "" == "(" then
    let r := findRightLoop tokens (tokens.length + 2) (operatorIndex + 2) 1
    if r.2 ≠ 0 then Except.error "Unbalanced parentheses in right operand"
    else Except.ok (r.1 - 1)
  else Except.ok (operatorIndex + 1)

/-- The `for (const index of indices)` body of `addOperatorParentheses`:
re-locate the operator with `indexOf`, reject a leading or trailing
operator (the source message wraps the operator in quotes), find both
operand bounds, and splice in the two parentheses (closing one first, so
the left insert position is unaffected). -/
def applyOperatorIndices (operator : String) :
    List Nat → List String → Except String (List String)
  | [], result => Except.ok result
  | index :: rest, result =>
      if index ≥ result.length then applyOperatorIndices operator rest result
      else
        match indexOfFrom result operator index with
        | none => applyOperatorIndices operator rest result
        | some actualIndex =>
            if actualIndex = 0 ∨ actualIndex = result.length - 1 then
              Except.error ("Missing operand for operator " ++ operator)
            else
              match findLeftOperandStart result actualIndex with
              | Except.error e => Except.error e
              | Except.ok leftStart =>
                  match findRightOperandEnd result actualIndex with
                  | Except.error e => Except.error e
                  | Except.ok rightEnd =>
                      applyOperatorIndices operator rest
                        (insertAt (insertAt result (rightEnd + 1) ")")
                          leftStart "(")

/-- `addOperatorParentheses` from `parser.ts`: skip fully parenthesized
inputs, collect the indices of the operator from right to left skipping
occurrences already inside parentheses, then bracket each occurrence. -/
def addOperatorParentheses (tokens : List String) (operator : String) :
    Except String (List String) :=
  if isFullyParenthesized tokens then Except.ok tokens
  else
    applyOperatorIndices operator
      (((List.range tokens.length).reverse).filter
        (fun i => tokens.getD i "" == operator &&
          !(isOperatorInParentheses tokens i))) tokens

/-- `addParentheses` from `parser.ts`: validate, return fully
parenthesized input unchanged, bracket negations, then bracket the binary
operators in the order `&`, `|`, `=>`, `<=>`. -/
def addParentheses (tokens : List String) : Except String (List String) :=
  if tokens.length = 0 then Except.error "Expression cannot be empty"
  else
    match validateParentheses tokens with
    | Except.error e => Except.error e
    | Except.ok _ =>
        if isFullyParenthesized tokens then Except.ok tokens
        else
          match addNegationParentheses tokens with
          | Except.error e => Except.error e
          | Except.ok t1 =>
              match addOperatorParentheses t1 "&" with
              | Except.error e => Except.error e
              | Except.ok t2 =>
                  match addOperatorParentheses t2 "|" with
                  | Except.error e => Except.error e
                  | Except.ok t3 =>
                      match addOperatorParentheses t3 "=>" with
                      | Except.error e => Except.error e
                      | Except.ok t4 => addOperatorParentheses t4 "<=>"

/-- The mutually recursive descent of `constructor.ts`, flattened into one
function: the plain modes are `parseBiconditional`, `parseImplication`,
`parseDisjunction`, `parseConjunction`, `parseNegation` and
`parsePrimary`; each `Loop` mode is the `while` loop of the corresponding
level carrying the expression built so far. -/
inductive ParseMode where
  | bic | imp | dis | con | neg | prim
  | bicLoop (e : BooleanExpression)
  | impLoop (e : BooleanExpression)
  | disLoop (e : BooleanExpression)
  | conLoop (e : BooleanExpression)

/-- The recursive descent of `constructor.ts`, fuel-driven
(`10 * (tokens.length + 1)` always suffices: every call either consumes a
token or moves down the fixed precedence chain). Returns the parsed
expression and the next index. -/
def parseGo : Nat → List String → ParseMode → Nat →
    Except String (BooleanExpression × Nat)
  | 0, _, _, _ => Except.error "out of fuel"
  | fuel + 1, tokens, mode, i =>
      match mode with
      | .bic =>
          match parseGo fuel tokens .imp i with
          | Except.ok (e, j) => parseGo fuel tokens (.bicLoop e) j
          | Except.error msg => Except.error msg
      | .bicLoop e =>
          if i < tokens.length ∧ tokens.getD i "" = "<=>" then
            match parseGo fuel tokens .imp (i + 1) with
            | Except.ok (r, k) =>
                parseGo fuel tokens (.bicLoop (.Biconditional e r)) k
            | Except.error msg => Except.error msg
          else Except.ok (e, i)
      | .imp =>
          match parseGo fuel tokens .dis i with
          | Except.ok (e, j) => parseGo fuel tokens (.impLoop e) j
          | Except.error msg => Except.error msg
      | .impLoop e =>
          if i < tokens.length ∧ tokens.getD i "" = "=>" then
            match parseGo fuel tokens .dis (i + 1) with
            | Except.ok (r, k) =>
                parseGo fuel tokens (.impLoop (.Implication e r)) k
            | Except.error msg => Except.error msg
          else Except.ok (e, i)
      | .dis =>
          match parseGo fuel tokens .con i with
          | Except.ok (e, j) => parseGo fuel tokens (.disLoop e) j
          | Except.error msg => Except.error msg
      | .disLoop e =>
          if i < tokens.length ∧ tokens.getD i "" = "|" then
            match parseGo fuel tokens .con (i + 1) with
            | Except.ok (r, k) =>
                parseGo fuel tokens (.disLoop (.Disjunction e r)) k
            | Except.error msg => Except.error msg
          else Except.ok (e, i)
      | .con =>
          match parseGo fuel tokens .neg i with
          | Except.ok (e, j) => parseGo fuel tokens (.conLoop e) j
          | Except.error msg => Except.error msg
      | .conLoop e =>
          if i < tokens.length ∧ tokens.getD i "" = "&" then
            match parseGo fuel tokens .neg (i + 1) with
            | Except.ok (r, k) =>
                parseGo fuel tokens (.conLoop (.Conjunction e r)) k
            | Except.error msg => Except.error msg
          else Except.ok (e, i)
      | .neg =>
          if i ≥ tokens.length then
            Except.error "Unexpected end of expression"
          else if tokens.getD i "" = "!" then
            match parseGo fuel tokens .neg (i + 1) with
            | Except.ok (e, j) => Except.ok (.Negation e, j)
            | Except.error msg => Except.error msg
          else parseGo fuel tokens .prim i
      | .prim =>
          if i ≥ tokens.length then
            Except.error "Unexpected end of expression"
          else
            let token := tokens.getD i ""
            if token = "(" then
              match parseGo fuel tokens .bic (i + 1) with
              | Except.ok (e, j) =>
                  if j < tokens.length ∧ tokens.getD j "" = ")" then
                    Except.ok (e, j + 1)
                  else Except.error "Missing closing parenthesis"
              | Except.error msg => Except.error msg
            else if token = "true" then Except.ok (.TrueConstant, i + 1)
            else if token = "false" then Except.ok (.FalseConstant, i + 1)
            else if isValidVariableName token then
              Except.ok (.Variable token, i + 1)
            else Except.error ("Unexpected token: " ++ token)

/-- `constructAST` from `constructor.ts`: parse from index 0 and return
the expression (the source ignores any trailing tokens). -/
def constructAST (tokens : List String) : Except String BooleanExpression :=
  if tokens.length = 0 then Except.error "Expression cannot be empty"
  else
    match parseGo (10 * (tokens.length + 1)) tokens .bic 0 with
    | Except.ok (e, _) => Except.ok e
    | Except.error msg => Except.error msg

/-- `parseToExpression` from `index.ts`, starting from the token list:
empty check, `addParentheses`, then `constructAST`. -/
def parsePipeline (tokens : List String) : Except String BooleanExpression :=
  if tokens.length = 0 then Except.error "Expression cannot be empty"
  else
    match addParentheses tokens with
    | Except.ok ts => constructAST ts
    | Except.error e => Except.error e

/-- C3 counterexample: the full pipeline parses `a & b & c` as
`Conjunction(a, Conjunction(b, c))` — the parenthesizer brackets the
rightmost `&` first, so `&` comes out right-associative, not
left-associative as claimed (the claim's `Conjunction(Conjunction(a, b), c)`
is not produced). -/
theorem C3_counterexample :
    parsePipeline ["a", "&", "b", "&", "c"] =
      Except.ok (.Conjunction (.Variable "a")
        (.Conjunction (.Variable "b") (.Variable "c"))) ∧
    parsePipeline ["a", "&", "b", "&", "c"] ≠
      Except.ok (.Conjunction
        (.Conjunction (.Variable "a") (.Variable "b")) (.Variable "c")) := by
  refine ⟨rfl, ?_⟩
  intro h
  rw [show parsePipeline ["a", "&", "b", "&", "c"] =
      Except.ok (.Conjunction (.Variable "a")
        (.Conjunction (.Variable "b") (.Variable "c"))) from rfl] at h
  exact absurd (Except.ok.inj h) (by decide)

/-- C3 amended: `addOperatorParentheses` brackets occurrences from the
rightmost one backwards, so in the full pipeline every binary operator is
right-associative — `a & b & c`, `a | b | c`, `a => b => c` and
`a <=> b <=> c` all nest to the right; precedence is still respected
(`a & b | c` gives `(a & b) | c`, `! a & b` gives `(!a) & b`). The
left-associative `while` loops of `constructor.ts` show only when
`constructAST` is called without the parenthesizer. -/
theorem C3_amended_right_associative :
    parsePipeline ["a", "&", "b", "&", "c"] =
      Except.ok (.Conjunction (.Variable "a")
        (.Conjunction (.Variable "b") (.Variable "c"))) ∧
    parsePipeline ["a", "|", "b", "|", "c"] =
      Except.ok (.Disjunction (.Variable "a")
        (.Disjunction (.Variable "b") (.Variable "c"))) ∧
    parsePipeline ["a", "=>", "b", "=>", "c"] =
      Except.ok (.Implication (.Variable "a")
        (.Implication (.Variable "b") (.Variable "c"))) ∧
    parsePipeline ["a", "<=>", "b", "<=>", "c"] =
      Except.ok (.Biconditional (.Variable "a")
        (.Biconditional (.Variable "b") (.Variable "c"))) ∧
    parsePipeline ["a", "&", "b", "|", "c"] =
      Except.ok (.Disjunction
        (.Conjunction (.Variable "a") (.Variable "b")) (.Variable "c")) ∧
    parsePipeline ["!", "a", "&", "b"] =
      Except.ok (.Conjunction (.Negation (.Variable "a")) (.Variable "b")) ∧
    constructAST ["a", "&", "b", "&", "c"] =
      Except.ok (.Conjunction
        (.Conjunction (.Variable "a") (.Variable "b")) (.Variable "c")) :=
  ⟨rfl, rfl, rfl, rfl, rfl, rfl, rfl⟩

/-- A hash-collision pair: `getHash` is not injective on arbitrary variable
names. This expression and `C2e2` are structurally different but share the
hash `AND(VAR(a), VAR(b), VAR(c))`. -/
def C2e1 : BooleanExpression :=
  .Conjunction (.Variable "a), VAR(b") (.Variable "c")

def C2e2 : BooleanExpression :=
  .Conjunction (.Variable "a") (.Variable "b), VAR(c")

/-- Host-supplied rule rewriting the start variable `s` to `C2e1`
(`ProofSearchOptions.rules` accepts arbitrary rule objects). -/
def C2ruleA : TransformationRule :=
  { name := "host rule A", category := "host", description := "s to e1",
    canApply := fun e => e.equals (.Variable "s"),
    apply := fun e =>
      if e.equals (.Variable "s") then Except.ok C2e1
      else Except.error "not applicable" }

/-- Host-supplied rule rewriting `s` to `C2e2`. -/
def C2ruleB : TransformationRule :=
  { name := "host rule B", category := "host", description := "s to e2",
    canApply := fun e => e.equals (.Variable "s"),
    apply := fun e =>
      if e.equals (.Variable "s") then Except.ok C2e2
      else Except.error "not applicable" }

/-- Host-supplied rule rewriting `C2e2` to the target `t`. -/
def C2ruleC : TransformationRule :=
  { name := "host rule C", category := "host", description := "e2 to t",
    canApply := fun e => e.equals C2e2,
    apply := fun e =>
      if e.equals C2e2 then Except.ok (.Variable "t")
      else Except.error "not applicable" }

/-- Host-supplied rule rewriting `C2e1` to `y`. -/
def C2ruleD : TransformationRule :=
  { name := "host rule D", category := "host", description := "e1 to y",
    canApply := fun e => e.equals C2e1,
    apply := fun e =>
      if e.equals C2e1 then Except.ok (.Variable "y")
      else Except.error "not applicable" }

/-- Host-supplied rule rewriting `y` to the target `t`. -/
def C2ruleE : TransformationRule :=
  { name := "host rule E", category := "host", description := "y to t",
    canApply := fun e => e.equals (.Variable "y"),
    apply := fun e =>
      if e.equals (.Variable "y") then Except.ok (.Variable "t")
      else Except.error "not applicable" }

/-- The options of the C2 counterexample run: the five host rules, all
other options at their defaults. -/
def C2options : ProofSearchOptions :=
  { rules := [C2ruleA, C2ruleB, C2ruleC, C2ruleD, C2ruleE] }

/-- C2 counterexample: the BFS dedupes by `getHash`, which collides on
adversarial variable names. Expanding `s` generates `C2e1` first and then
skips `C2e2` (same hash, different expression), losing the two-application
proof `s -> C2e2 -> t`; the search then returns the three-application
proof `s -> C2e1 -> y -> t` with `found = true`. Both lost steps are
ordinary candidates of `getAllPossibleTransformations` within every
budget, so the returned proof is not minimal. -/
theorem C2_counterexample :
    C2e1.equals C2e2 = false ∧
    C2e1.getHash = C2e2.getHash ∧
    C2e2 ∈ (getAllPossibleTransformations (.Variable "s") C2options.rules
      C2options.maxExpressionLength).map Transformation.newExpression ∧
    BooleanExpression.Variable "t" ∈
      (getAllPossibleTransformations C2e2 C2options.rules
        C2options.maxExpressionLength).map Transformation.newExpression ∧
    C2e2.getLength ≤ C2options.maxExpressionLength ∧
    2 ≤ C2options.maxDepth ∧
    ∃ p, findTransformationProof (.Variable "s") (.Variable "t") C2options =
        some (Except.ok p) ∧
      p.found = true ∧ p.steps.length - 1 = 3 :=
  ⟨by decide, by decide, by decide, by decide, by decide, by decide,
    ⟨_, rfl, rfl, rfl⟩⟩

/-- Well-formedness of a BFS node: the parent chain reaches a root node
holding the start expression at depth 0, each link increments the depth,
and each link's expression is an actual candidate emitted by
`getAllPossibleTransformations` for its parent. -/
def NodeOK (S : BooleanExpression) (rules : List TransformationRule)
    (maxLen : Nat) : ProofNode → Prop
  | .mk e p _ _ d =>
      match p with
      | none => e = S ∧ d = 0
      | some parent =>
          d = parent.depth + 1 ∧
          e ∈ (getAllPossibleTransformations parent.expression rules
            maxLen).map Transformation.newExpression ∧
          NodeOK S rules maxLen parent

/-- If the child-processing loop reports a found node, that node is the
freshly built child of `current` for one of the candidate
transformations, and its expression equals the target. -/
theorem processChildren_found_node (T : BooleanExpression) (current : ProofNode) :
    ∀ (ts : List Transformation) (visited : List String) (queue : List ProofNode)
      (v : List String) (q : List ProofNode) (node : ProofNode),
      processChildren T current ts visited queue = (v, q, some node) →
      ∃ t ∈ ts, node = ProofNode.mk t.newExpression (some current) (some t.rule)
          t.appliedToSubexpression (current.depth + 1) ∧
        t.newExpression.equals T = true := by
  intro ts
  induction ts with
  | nil =>
      intro visited queue v q node h
      simp [processChildren] at h
  | cons t ts ih =>
      intro visited queue v q node h
      simp only [processChildren] at h
      split at h
      · obtain ⟨u, hu, hx⟩ := ih _ _ _ _ _ h
        exact ⟨u, List.mem_cons_of_mem _ hu, hx⟩
      · split at h
        · rename_i heq
          injection h with h1 h23
          injection h23 with h2 h3
          obtain rfl := Option.some.inj h3
          exact ⟨t, List.mem_cons_self t ts, rfl, heq⟩
        · obtain ⟨u, hu, hx⟩ := ih _ _ _ _ _ h
          exact ⟨u, List.mem_cons_of_mem _ hu, hx⟩

/-- When the child-processing loop finds nothing, every node of the
resulting queue is well-formed, provided the incoming queue nodes and the
current node are and the candidates come from
`getAllPossibleTransformations`. -/
theorem processChildren_none_ok (S T : BooleanExpression)
    (rules : List TransformationRule) (maxLen : Nat) (current : ProofNode)
    (hcur : NodeOK S rules maxLen current) :
    ∀ (ts : List Transformation) (visited : List String) (queue : List ProofNode)
      (v2 : List String) (q2 : List ProofNode),
      (∀ t ∈ ts, t ∈ getAllPossibleTransformations current.expression rules maxLen) →
      (∀ n ∈ queue, NodeOK S rules maxLen n) →
      processChildren T current ts visited queue = (v2, q2, none) →
      ∀ n ∈ q2, NodeOK S rules maxLen n := by
  intro ts
  induction ts with
  | nil =>
      intro visited queue v2 q2 hts hq h
      simp only [processChildren] at h
      injection h with h1 h23
      injection h23 with h2 h3
      obtain rfl := h2
      exact hq
  | cons t ts ih =>
      intro visited queue v2 q2 hts hq h
      simp only [processChildren] at h
      split at h
      · exact ih _ _ _ _ (fun u hu => hts u (List.mem_cons_of_mem _ hu)) hq h
      · split at h
        · injection h with h1 h23
          injection h23 with h2 h3
          exact absurd h3 (by simp)
        · refine ih _ _ _ _ (fun u hu => hts u (List.mem_cons_of_mem _ hu)) ?_ h
          intro n hn
          rcases List.mem_append.1 hn with hn | hn
          · exact hq n hn
          · obtain rfl := List.mem_singleton.1 hn
            exact ⟨rfl, List.mem_map.2
              ⟨t, hts t (List.mem_cons_self _ _), rfl⟩, hcur⟩

/-- If the BFS loop returns a proof object with `found = true` from a
queue of well-formed nodes, the returned steps reconstruct the chain of a
well-formed node whose expression equals the target, and `searchDepth` is
that node's depth. -/
theorem bfsLoop_found_chain (S T : BooleanExpression)
    (options : ProofSearchOptions) :
    ∀ (fuel : Nat) (queue : List ProofNode) (visited : List String) (s mdr : Nat)
      (p : TransformationProof),
      (∀ n ∈ queue, NodeOK S options.rules options.maxExpressionLength n) →
      bfsLoop S T options fuel queue visited s mdr = some (Except.ok p) →
      p.found = true →
      ∃ node, NodeOK S options.rules options.maxExpressionLength node ∧
        node.expression.equals T = true ∧
        p.steps = reconstructProof node ∧ p.searchDepth = node.depth := by
  intro fuel
  induction fuel with
  | zero =>
      intro queue visited s mdr p hq h hf
      simp [bfsLoop] at h
  | succ fuel ih =>
      intro queue visited s mdr p hq h hf
      cases queue with
      | nil =>
          simp only [bfsLoop] at h
          obtain rfl := Except.ok.inj (Option.some.inj h)
          simp at hf
      | cons current rest =>
          rw [bfsLoop_cons_eq] at h
          cases hpr : progressCheck options (s + 1) current.depth with
          | error err =>
              rw [hpr] at h
              exact absurd h (by simp)
          | ok u =>
              rw [hpr] at h
              replace h : (if s + 1 ≥ options.maxStates then
                    some (Except.ok
                      { startExpression := S, targetExpression := T, steps := [],
                        found := false, searchDepth := mdr,
                        totalStatesExplored := s + 1 })
                  else if current.depth ≥ options.maxDepth then
                    bfsLoop S T options fuel rest visited (s + 1) mdr
                  else
                    match processChildren T current
                        (getAllPossibleTransformations current.expression
                          options.rules options.maxExpressionLength)
                        visited rest with
                    | (_, _, some foundNode) =>
                        some (Except.ok
                          { startExpression := S, targetExpression := T,
                            steps := reconstructProof foundNode, found := true,
                            searchDepth := foundNode.depth,
                            totalStatesExplored := s + 1 })
                    | (visited2, queue2, none) =>
                        bfsLoop S T options fuel queue2 visited2 (s + 1)
                          (max mdr current.depth)) = some (Except.ok p) := h
              split at h
              · obtain rfl := Except.ok.inj (Option.some.inj h)
                simp at hf
              · split at h
                · exact ih _ _ _ _ _
                    (fun n hn => hq n (List.mem_cons_of_mem _ hn)) h hf
                · rcases hpc : processChildren T current
                      (getAllPossibleTransformations current.expression
                        options.rules options.maxExpressionLength)
                      visited rest with ⟨v2, q2, onode⟩
                  rw [hpc] at h
                  cases onode with
                  | some foundNode =>
                      replace h : (some (Except.ok
                          { startExpression := S, targetExpression := T,
                            steps := reconstructProof foundNode, found := true,
                            searchDepth := foundNode.depth,
                            totalStatesExplored := s + 1 }) :
                          Option (Except Unit TransformationProof)) =
                          some (Except.ok p) := h
                      obtain rfl := Except.ok.inj (Option.some.inj h)
                      obtain ⟨t, ht, rfl, hteq⟩ :=
                        processChildren_found_node T current _ _ _ _ _ _ hpc
                      refine ⟨ProofNode.mk t.newExpression (some current)
                        (some t.rule) t.appliedToSubexpression
                        (current.depth + 1), ?_, ?_, rfl, rfl⟩
                      · exact ⟨rfl, List.mem_map.2 ⟨t, ht, rfl⟩,
                          hq current (List.mem_cons_self _ _)⟩
                      · exact hteq
                  | none =>
                      replace h : bfsLoop S T options fuel q2 v2 (s + 1)
                          (max mdr current.depth) = some (Except.ok p) := h
                      refine ih _ _ _ _ _ ?_ h hf
                      exact processChildren_none_ok S T options.rules
                        options.maxExpressionLength current
                        (hq current (List.mem_cons_self _ _)) _ _ _ _ _
                        (fun t ht => ht)
                        (fun n hn => hq n (List.mem_cons_of_mem _ hn)) hpc

/-- Index access into `l ++ [x]` at position `l.length` gives `x`. -/
theorem get_append_singleton_last {α : Type} (l : List α) (x : α) (i : Nat)
    (h : i < (l ++ [x]).length) (hi : i = l.length) :
    (l ++ [x]).get ⟨i, h⟩ = x := by
  subst hi
  simp [List.get_eq_getElem]

/-- The facts of a well-formed node chain: `collectNodes` has length
`depth + 1`, starts at the start expression, ends at the node itself, and
consecutive entries are linked by actual transformations. -/
theorem chainFacts (S : BooleanExpression) (rules : List TransformationRule)
    (maxLen : Nat) :
    ∀ (k : Nat) (n : ProofNode), n.depth ≤ k → NodeOK S rules maxLen n →
      (collectNodes n).length = n.depth + 1 ∧
      (∀ h0 : 0 < (collectNodes n).length,
        ((collectNodes n).get ⟨0, h0⟩).expression = S) ∧
      (∀ hl : n.depth < (collectNodes n).length,
        (collectNodes n).get ⟨n.depth, hl⟩ = n) ∧
      (∀ (i : Nat) (h1 : i + 1 < (collectNodes n).length)
        (h2 : i < (collectNodes n).length),
        (((collectNodes n).get ⟨i + 1, h1⟩).expression) ∈
          (getAllPossibleTransformations
            (((collectNodes n).get ⟨i, h2⟩).expression) rules maxLen).map
            Transformation.newExpression) := by
  intro k
  induction k with
  | zero =>
      intro n hd hok
      cases n with
      | mk e p r a d =>
          cases p with
          | none =>
              have hok2 : e = S ∧ d = 0 := hok
              obtain ⟨rfl, rfl⟩ := hok2
              refine ⟨rfl, fun h0 => rfl, fun hl => rfl, fun i h1 h2 => ?_⟩
              exact absurd h1 (by
                have hlen : (collectNodes (ProofNode.mk e none r a 0)).length = 1 := rfl
                rw [hlen]
                omega)
          | some parent =>
              exfalso
              have hok2 : d = parent.depth + 1 ∧
                  e ∈ (getAllPossibleTransformations parent.expression rules
                    maxLen).map Transformation.newExpression ∧
                  NodeOK S rules maxLen parent := hok
              have hd2 : d ≤ 0 := hd
              have := hok2.1
              omega
  | succ k ih =>
      intro n hd hok
      cases n with
      | mk e p r a d =>
          cases p with
          | none =>
              have hok2 : e = S ∧ d = 0 := hok
              obtain ⟨rfl, rfl⟩ := hok2
              refine ⟨rfl, fun h0 => rfl, fun hl => rfl, fun i h1 h2 => ?_⟩
              exact absurd h1 (by
                have hlen : (collectNodes (ProofNode.mk e none r a 0)).length = 1 := rfl
                rw [hlen]
                omega)
          | some parent =>
              have hok2 : d = parent.depth + 1 ∧
                  e ∈ (getAllPossibleTransformations parent.expression rules
                    maxLen).map Transformation.newExpression ∧
                  NodeOK S rules maxLen parent := hok
              obtain ⟨hdep, hmem, hokp⟩ := hok2
              have hdp : parent.depth ≤ k := by
                have hd2 : d ≤ k + 1 := hd
                omega
              obtain ⟨f1, f2, f3, f4⟩ := ih parent hdp hokp
              have hlen2 : (collectNodes (ProofNode.mk e (some parent) r a d)).length =
                  (collectNodes parent).length + 1 := by
                show (collectNodes parent ++
                  [ProofNode.mk e (some parent) r a d]).length = _
                simp
              refine ⟨?_, ?_, ?_, ?_⟩
              · rw [hlen2, f1]
                show parent.depth + 1 + 1 = d + 1
                omega
              · intro h0
                have h0L : 0 < (collectNodes parent).length := by
                  rw [f1]; omega
                have hg : (collectNodes (ProofNode.mk e (some parent) r a d)).get
                    ⟨0, h0⟩ = (collectNodes parent).get ⟨0, h0L⟩ := by
                  simp only [List.get_eq_getElem]
                  exact List.getElem_append_left h0L
                rw [hg]
                exact f2 h0L
              · intro hl
                have hld : d = (collectNodes parent).length := by
                  rw [f1]; omega
                exact get_append_singleton_last (collectNodes parent)
                  (ProofNode.mk e (some parent) r a d) d hl hld
              · intro i h1 h2
                have h1c : i + 1 < (collectNodes parent).length + 1 := by
                  rw [← hlen2]; exact h1
                by_cases hlt : i + 1 < (collectNodes parent).length
                · have h2L : i < (collectNodes parent).length := by omega
                  have hgi : (collectNodes (ProofNode.mk e (some parent) r a d)).get
                      ⟨i, h2⟩ = (collectNodes parent).get ⟨i, h2L⟩ := by
                    simp only [List.get_eq_getElem]
                    exact List.getElem_append_left h2L
                  have hgi1 : (collectNodes (ProofNode.mk e (some parent) r a d)).get
                      ⟨i + 1, h1⟩ = (collectNodes parent).get ⟨i + 1, hlt⟩ := by
                    simp only [List.get_eq_getElem]
                    exact List.getElem_append_left hlt
                  rw [hgi, hgi1]
                  exact f4 i hlt h2L
                · have hi1 : i + 1 = (collectNodes parent).length := by omega
                  have h2L : i < (collectNodes parent).length := by omega
                  have hip : i = parent.depth := by
                    rw [f1] at hi1
                    omega
                  have hg1 : (collectNodes (ProofNode.mk e (some parent) r a d)).get
                      ⟨i + 1, h1⟩ = ProofNode.mk e (some parent) r a d :=
                    get_append_singleton_last (collectNodes parent)
                      (ProofNode.mk e (some parent) r a d) (i + 1) h1 hi1
                  have hgi : (collectNodes (ProofNode.mk e (some parent) r a d)).get
                      ⟨i, h2⟩ = (collectNodes parent).get ⟨i, h2L⟩ := by
                    simp only [List.get_eq_getElem]
                    exact List.getElem_append_left h2L
                  have hgp : (collectNodes parent).get ⟨i, h2L⟩ = parent := by
                    subst hip
                    exact f3 h2L
                  rw [hg1, hgi, hgp]
                  exact hmem

/-- A placeholder proof step used as the default of indexed access. -/
def dummyStep : ProofStep :=
  { expression := .TrueConstant, rule := none,
    appliedToSubexpression := none, stepNumber := 0 }

/-- `List.getD` at an in-bounds index agrees with `List.get`. -/
theorem getD_eq_get {α : Type} (l : List α) (d : α) :
    ∀ (i : Nat) (h : i < l.length), l.getD i d = l.get ⟨i, h⟩ := by
  induction l with
  | nil =>
      intro i h
      exact absurd h (by simp)
  | cons x xs ih =>
      intro i h
      cases i with
      | zero => rfl
      | succ j => exact ih j (Nat.lt_of_succ_lt_succ h)

theorem reconstructProof_length (n : ProofNode) :
    (reconstructProof n).length = (collectNodes n).length := by
  simp [reconstructProof]

theorem reconstructProof_get (n : ProofNode) (i : Nat)
    (h : i < (reconstructProof n).length) (h2 : i < (collectNodes n).length) :
    (reconstructProof n).get ⟨i, h⟩ =
      { expression := ((collectNodes n).get ⟨i, h2⟩).expression,
        rule := ((collectNodes n).get ⟨i, h2⟩).rule,
        appliedToSubexpression :=
          ((collectNodes n).get ⟨i, h2⟩).appliedToSubexpression,
        stepNumber := i + 1 } := by
  simp only [reconstructProof, List.get_eq_getElem, List.getElem_map,
    List.getElem_enum]

/-- C2 amended: a proof object returned with `found = true` is a genuine
rewrite chain: it has `searchDepth + 1` steps numbered from 1, starts at
the start expression, each step's expression is an actual candidate of
`getAllPossibleTransformations` for its predecessor (hence within the
length budget), and the final step's expression equals the target. The
chain need not be shortest: the BFS dedupes by `getHash`, which can
conflate distinct expressions (see the C2 counterexample). -/
theorem C2_amended_proof_chain :
    ∀ (S T : BooleanExpression) (options : ProofSearchOptions)
      (p : TransformationProof),
      findTransformationProof S T options = some (Except.ok p) →
      p.found = true →
      p.steps.length = p.searchDepth + 1 ∧
      (p.steps.getD 0 dummyStep).expression = S ∧
      (∀ i, i < p.steps.length →
        (p.steps.getD i dummyStep).stepNumber = i + 1) ∧
      (∀ i, i + 1 < p.steps.length →
        (p.steps.getD (i + 1) dummyStep).expression ∈
          (getAllPossibleTransformations
            ((p.steps.getD i dummyStep).expression)
            options.rules options.maxExpressionLength).map
            Transformation.newExpression) ∧
      ((p.steps.getD (p.steps.length - 1) dummyStep).expression).equals T
        = true := by
  intro S T options p hp hf
  by_cases hST : S.equals T = true
  · simp only [findTransformationProof, hST, if_true] at hp
    obtain rfl := Except.ok.inj (Option.some.inj hp)
    refine ⟨rfl, rfl, ?_, ?_, ?_⟩
    · intro i hi
      have hi1 : i < 1 := hi
      have hi0 : i = 0 := by omega
      subst hi0
      rfl
    · intro i hi
      have hi1 : i + 1 < 1 := hi
      exact absurd hi1 (by omega)
    · exact hST
  · have hSTf : S.equals T = false := by
      cases hb : S.equals T
      · rfl
      · exact absurd hb hST
    simp only [findTransformationProof, hSTf, Bool.false_eq_true,
      if_false] at hp
    obtain ⟨node, hok, heqT, hsteps, hdepth⟩ :=
      bfsLoop_found_chain S T options _ _ _ _ _ p
        (by
          intro n hn
          obtain rfl := List.mem_singleton.1 hn
          exact ⟨rfl, rfl⟩) hp hf
    obtain ⟨f1, f2, f3, f4⟩ := chainFacts S options.rules
      options.maxExpressionLength node.depth node (Nat.le_refl _) hok
    have hlenp : p.steps.length = node.depth + 1 := by
      rw [hsteps, reconstructProof_length, f1]
    refine ⟨?_, ?_, ?_, ?_, ?_⟩
    · rw [hlenp, hdepth]
    · have h0c : 0 < (collectNodes node).length := by rw [f1]; omega
      have h0p : 0 < (reconstructProof node).length := by
        rw [reconstructProof_length]; exact h0c
      rw [hsteps, getD_eq_get _ _ _ h0p, reconstructProof_get node 0 h0p h0c]
      exact f2 h0c
    · intro i hi
      have hi2 : i < (reconstructProof node).length := by
        rw [← hsteps]; exact hi
      have hic : i < (collectNodes node).length := by
        rw [← reconstructProof_length]; exact hi2
      rw [hsteps, getD_eq_get _ _ _ hi2, reconstructProof_get node i hi2 hic]
    · intro i hi
      have hi2 : i + 1 < (reconstructProof node).length := by
        rw [← hsteps]; exact hi
      have hic1 : i + 1 < (collectNodes node).length := by
        rw [← reconstructProof_length]; exact hi2
      have hi0 : i < (reconstructProof node).length := by omega
      have hic0 : i < (collectNodes node).length := by omega
      rw [hsteps, getD_eq_get _ _ _ hi2, getD_eq_get _ _ _ hi0,
        reconstructProof_get node (i + 1) hi2 hic1,
        reconstructProof_get node i hi0 hic0]
      exact f4 i hic1 hic0
    · have hl : p.steps.length - 1 = node.depth := by rw [hlenp]; omega
      rw [hl]
      have hd2c : node.depth < (collectNodes node).length := by
        rw [f1]; omega
      have hd2 : node.depth < (reconstructProof node).length := by
        rw [reconstructProof_length]; exact hd2c
      rw [hsteps, getD_eq_get _ _ _ hd2,
        reconstructProof_get node node.depth hd2 hd2c, f3 hd2c]
      exact heqT

/-- C2 amended witness: the trivial search where the start expression
already equals the target, checked against the chain facts. -/
theorem C2_amended_proof_chain_witness :
    ∃ p, findTransformationProof (.Variable "a") (.Variable "a") {} =
        some (Except.ok p) ∧ p.found = true ∧
      p.steps.length = p.searchDepth + 1 ∧
      (p.steps.getD 0 dummyStep).expression = .Variable "a" := by
  refine ⟨_, rfl, rfl, ?_, ?_⟩
  · exact (C2_amended_proof_chain (.Variable "a") (.Variable "a") {} _ rfl rfl).1
  · exact (C2_amended_proof_chain (.Variable "a") (.Variable "a") {} _ rfl rfl).2.1

end ProofGenerator
